import Mathlib

/-!
# The plugin controller of `jrpc2` (plugin.go)

A shallow embedding of the registries, the manifest builder and the init
handler of `plugin.go`, with the properties of its specification, followed by
the amount computation of the example plugin `pl_htlcacc`.

Conventions of the embedding.

* A Go pointer that may be `nil` is a `Nullable` value; the object behind a
  non-nil pointer is the value itself.  The two registries own one object per
  key, so `map[string]*Option` is a map from names to `Option` objects and a
  write through a registered pointer (`opt.Set`) is a write to the entry it was
  read from.
* A Go `map` is a `GoMap`: a list of entries with pairwise distinct keys.  The
  order of the list is the order in which a `range` loop visits the entries; Go
  leaves that order open, and every statement below holds for every order
  because it is quantified over every `GoMap`.
* A function that can fault at run time (a nil dereference, a call of a nil
  function value) returns `Outcome.panic`.
* An `error` is `none` for Go's `nil` and `some msg` otherwise.
* Output that leaves the controller (`log.Printf`, the call of the user's init
  callback) is recorded as a list of `Event`s.
-/

/-- A Go pointer (or interface value): `none` is `nil`. -/
abbrev Nullable (α : Type) : Type := Option α

/-- A Go `error` value: `none` is `nil`, `some msg` carries the message. -/
abbrev GoError : Type := Option String

/-- Result of a call that may fault at run time. -/
inductive Outcome (α : Type) where
  | ok (a : α)
  | panic (msg : String)
  deriving DecidableEq, Repr

namespace Outcome

/-- Sequencing: a fault in the first call is the fault of the whole. -/
def bind {α β : Type} (x : Outcome α) (f : α → Outcome β) : Outcome β :=
  match x with
  | ok a => f a
  | panic msg => panic msg

/-- The call returned normally. -/
def isOk {α : Type} : Outcome α → Bool
  | ok _ => true
  | panic _ => false

end Outcome

/-! ## Go maps with string keys -/

namespace AssocList

variable {V : Type}

/-- Read `m[k]` on the entry list: the value of the first entry with key `k`. -/
def get (k : String) : List (String × V) → Nullable V
  | [] => none
  | (k', v) :: t => if k' = k then some v else get k t

/-- Write `m[k] = v` on the entry list: overwrite the entry with key `k` in
place, or add a new entry. -/
def set (k : String) (v : V) : List (String × V) → List (String × V)
  | [] => [(k, v)]
  | (k', v') :: t => if k' = k then (k, v) :: t else (k', v') :: set k v t

/-- Delete key `k` from the entry list (`delete(m, k)`). -/
def del (k : String) : List (String × V) → List (String × V)
  | [] => []
  | (k', v') :: t => if k' = k then del k t else (k', v') :: del k t

/-- The keys of an entry list, in order. -/
def keys (l : List (String × V)) : List String := l.map Prod.fst

end AssocList

/-- A Go `map[string]V`: entries with pairwise distinct keys, listed in the
order a `range` loop visits them. -/
structure GoMap (V : Type) where
  entries : List (String × V)
  nodup : (AssocList.keys entries).Nodup

namespace AssocList

variable {V : Type}

theorem keys_set (k : String) (v : V) (l : List (String × V)) :
    keys (set k v l) = if k ∈ keys l then keys l else keys l ++ [k] := by
  induction l with
  | nil => simp [set, keys]
  | cons p t ih =>
    obtain ⟨k', v'⟩ := p
    by_cases h : k' = k
    · subst h
      simp [set, keys]
    · have h' : ¬ k = k' := fun e => h e.symm
      simp only [keys] at ih
      simp only [set, if_neg h, keys, List.map_cons, List.mem_cons, h', false_or, ih]
      split <;> simp

theorem nodup_set (k : String) (v : V) (l : List (String × V))
    (h : (keys l).Nodup) : (keys (set k v l)).Nodup := by
  rw [keys_set]
  split
  · exact h
  · rename_i hk
    rw [List.nodup_append]
    refine ⟨h, by simp, ?_⟩
    intro a ha hb
    simp at hb
    subst hb
    exact hk ha

theorem keys_del (k : String) (l : List (String × V)) :
    keys (del k l) = (keys l).filter (fun x => decide (x ≠ k)) := by
  induction l with
  | nil => simp [del, keys]
  | cons p t ih =>
    obtain ⟨k', v'⟩ := p
    simp only [keys] at ih
    by_cases h : k' = k
    · simp [del, keys, h, ih]
    · simp [del, keys, h, ih]

theorem nodup_del (k : String) (l : List (String × V))
    (h : (keys l).Nodup) : (keys (del k l)).Nodup := by
  rw [keys_del]
  exact h.filter _

end AssocList

namespace GoMap

variable {V : Type}

instance [DecidableEq V] : DecidableEq (GoMap V) := fun a b =>
  match a, b with
  | ⟨ea, _⟩, ⟨eb, _⟩ =>
    if h : ea = eb then isTrue (by subst h; rfl)
    else isFalse (fun e => h (congrArg GoMap.entries e))

/-- The empty map, `make(map[string]V)`. -/
def empty : GoMap V := ⟨[], List.nodup_nil⟩

/-- Lookup `m[k]`: `none` when the key is absent (Go's `exists == false`). -/
def get (m : GoMap V) (k : String) : Nullable V := AssocList.get k m.entries

/-- The `exists` flag of `_, exists := m[k]`. -/
def contains (m : GoMap V) (k : String) : Bool := (m.get k).isSome

/-- Assignment `m[k] = v`. -/
def set (m : GoMap V) (k : String) (v : V) : GoMap V :=
  ⟨AssocList.set k v m.entries, AssocList.nodup_set k v m.entries m.nodup⟩

/-- Deletion `delete(m, k)`; a no-op when the key is absent. -/
def delete (m : GoMap V) (k : String) : GoMap V :=
  ⟨AssocList.del k m.entries, AssocList.nodup_del k m.entries m.nodup⟩

/-- Number of entries, `len(m)`. -/
def len (m : GoMap V) : Nat := m.entries.length

/-- The keys of the map, in iteration order. -/
def keys (m : GoMap V) : List String := AssocList.keys m.entries

end GoMap

/-- Dereference of a Go pointer (or a call through an interface or function
value): faults on `nil`. -/
def deref {α : Type} (x : Nullable α) : Outcome α :=
  match x with
  | some a => Outcome.ok a
  | none => Outcome.panic "invalid memory address or nil pointer dereference"

namespace jrpc2

/-! ## Options -/

/-- The `Option` struct of plugin.go. -/
structure Option where
  Name : String
  Default : String
  description : String
  Val : String
  deriving DecidableEq, Repr

/-- `NewOption`: the fields named in the literal are set, `Val` keeps Go's zero
value for strings. -/
def NewOption (name description defaultValue : String) : Option :=
  { Name := name, Default := defaultValue, description := description, Val := "" }

/-- `(*Option).Description`. -/
def Option.Description (o : Option) : String :=
  if o.description ≠ "" then o.description else "A golightning plugin option"

/-- `(*Option).Set`. -/
def Option.Set (o : Option) (value : String) : Option :=
  { o with Val := value }

/-- `(*Option).Value`. -/
def Option.Value (o : Option) : String := o.Val

/-! ## Method descriptors -/

/-- One field of the struct behind a callable, as `reflect` shows it: the
field's name, `Type().Name()` (empty for an unnamed type such as a pointer or a
map) and `CanInterface()` (false for an unexported field). -/
structure Field where
  Name : String
  TypeName : String
  CanInterface : Bool
  deriving DecidableEq, Repr

/-- A value of the `ServerMethod` interface (declared in the transport's file,
which is not part of the sources): what `Name()` reports and the fields of the
struct behind the interface. -/
structure ServerMethod where
  Name : String
  fields : List Field
  deriving DecidableEq, Repr

/-- The `RpcMethod` struct: `Method` is an interface value and may be `nil`. -/
structure RpcMethod where
  Method : Nullable ServerMethod
  Desc : String
  deriving DecidableEq, Repr

/-- `NewRpcMethod`. -/
def NewRpcMethod (method : Nullable ServerMethod) (desc : String) : RpcMethod :=
  { Method := method, Desc := desc }

/-- `(*RpcMethod).Description`. -/
def RpcMethod.Description (r : RpcMethod) : String :=
  if r.Desc ≠ "" then r.Desc else "A golightning RPC method."

/-- `isBuiltInMethod`. -/
def isBuiltInMethod (name : String) : Bool :=
  name == "getmanifest" || name == "init"

/-- The `Config` struct. -/
structure Config where
  LightningDir : String
  RpcFile : String
  deriving DecidableEq, Repr

/-! ## The transport -/

/-- Modelled from the spec: the transport (`Server`, whose file is not part of
the sources) as the set of names it holds, each with its callable. -/
structure Server where
  registry : GoMap ServerMethod
  deriving DecidableEq

/-- Modelled from the spec: `NewServer` starts with no registered name. -/
def NewServer : Server := { registry := GoMap.empty }

/-- Modelled from the spec: `register(name, callable)` "fails with a
DuplicateNameError-compatible error if the name is already registered" and
otherwise holds the name.  The name is asked of the callable, which faults on a
nil interface value. -/
def Server.Register (s : Server) (method : Nullable ServerMethod) :
    Outcome (Server × GoError) :=
  (deref method).bind fun m =>
    if s.registry.contains m.Name then Outcome.ok (s, some "Method already registered")
    else Outcome.ok ({ registry := s.registry.set m.Name m }, none)

/-- Modelled from the spec: `unregister(name)` removes a name the transport
holds and fails with an error for a name it does not hold. -/
def Server.Unregister (s : Server) (method : Nullable ServerMethod) :
    Outcome (Server × GoError) :=
  (deref method).bind fun m =>
    if !s.registry.contains m.Name then Outcome.ok (s, some "Method not registered")
    else Outcome.ok ({ registry := s.registry.delete m.Name }, none)

/-- The names the transport holds. -/
def Server.live (s : Server) (name : String) : Prop := name ∈ s.registry.keys

/-! ## The plugin controller -/

/-- The user's init callback, a Go function value.  Its body is user code; the
model keeps only its identity. -/
structure InitFn where
  id : Nat
  deriving DecidableEq, Repr

/-- The `Plugin` struct. -/
structure Plugin where
  server : Server
  options : GoMap Option
  methods : GoMap RpcMethod
  initialized : Bool
  initFn : Nullable InitFn
  logFile : String
  Config : Nullable Config
  deriving DecidableEq

/-- What the controller sends out of itself. -/
inductive Event where
  /-- A line written by `log.Printf`. -/
  | logPrintf (line : String)
  /-- The call `initFn(plugin, options, c)` of the user's callback, with the
  option snapshot and the configuration it receives. -/
  | initFnCall (fn : InitFn) (options : GoMap String) (c : Nullable Config)
  deriving DecidableEq

/-- `(*Plugin).SetLogfile`. -/
def Plugin.SetLogfile (p : Plugin) (filename : String) : Plugin :=
  { p with logFile := filename }

/-- `NewPlugin`: fields not assigned keep their zero value. -/
def NewPlugin (initHandler : Nullable InitFn) : Plugin :=
  { server := NewServer
    options := GoMap.empty
    methods := GoMap.empty
    initialized := false
    initFn := initHandler
    logFile := "golightning.log"
    Config := none }

/-- `(*Plugin).registerRpcMethod`. -/
def Plugin.registerRpcMethod (p : Plugin) (rpc : Nullable RpcMethod) : Plugin × GoError :=
  match rpc with
  | none => (p, some "Can't register an empty rpc method")
  | some r =>
    match r.Method with
    | none => (p, some "Can't register an empty rpc method")
    | some m =>
      if p.methods.contains m.Name then
        (p, some ("Method `" ++ m.Name ++ "` already registered"))
      else
        ({ p with methods := p.methods.set m.Name r }, none)

/-- `(*Plugin).RegisterMethod`.  The first statement reads `m.Method`, which
faults when `m` is nil. -/
def Plugin.RegisterMethod (p : Plugin) (m : Nullable RpcMethod) : Outcome (Plugin × GoError) :=
  (deref m).bind fun r =>
    (p.server.Register r.Method).bind fun (srv, err) =>
      match err with
      | some e => Outcome.ok ({ p with server := srv }, some e)
      | none =>
        let (p1, err1) := Plugin.registerRpcMethod { p with server := srv } m
        match err1 with
        | some e =>
          (p1.server.Unregister r.Method).bind fun (srv2, _) =>
            Outcome.ok ({ p1 with server := srv2 }, some e)
        | none => Outcome.ok (p1, none)

/-- `(*Plugin).unregisterMethod`.  For an unknown name the code builds an error
value with `fmt.Errorf` and drops it: there is no `return` in that branch. -/
def Plugin.unregisterMethod (p : Plugin) (rpc : Nullable RpcMethod) : Plugin × GoError :=
  match rpc with
  | none => (p, some "Can't unregister an empty method")
  | some r =>
    match r.Method with
    | none => (p, some "Can't unregister an empty method")
    | some m =>
      let _dropped : GoError :=
        if !p.methods.contains m.Name then
          some ("Can't unregister, method " ++ m.Name ++ " is unknown")
        else none
      ({ p with methods := p.methods.delete m.Name }, none)

/-- `(*Plugin).UnregisterMethod`.  The condition `err != nil || rpc.Method != nil`
reads `rpc.Method` only when `err` is nil; the call in the branch reads it
again. -/
def Plugin.UnregisterMethod (p : Plugin) (rpc : Nullable RpcMethod) :
    Outcome (Plugin × GoError) :=
  let (p1, err) := p.unregisterMethod rpc
  let cond : Outcome Bool :=
    if err.isSome then Outcome.ok true
    else (deref rpc).bind fun r => Outcome.ok r.Method.isSome
  cond.bind fun c =>
    if c then
      (deref rpc).bind fun r =>
        (p1.server.Unregister r.Method).bind fun (srv, err2) =>
          Outcome.ok ({ p1 with server := srv }, err2)
    else Outcome.ok (p1, err)

/-- `(*Plugin).RegisterOption`. -/
def Plugin.RegisterOption (p : Plugin) (o : Nullable Option) : Plugin × GoError :=
  match o with
  | none => (p, some "Can't register an empty option")
  | some opt =>
    if p.options.contains opt.Name then
      (p, some ("Option `" ++ opt.Name ++ "` already registered"))
    else
      ({ p with options := p.options.set opt.Name opt }, none)

/-- `(*Plugin).UnregisterOption`. -/
def Plugin.UnregisterOption (p : Plugin) (o : Nullable Option) : Plugin × GoError :=
  match o with
  | none => (p, some "Can't remove an empty option")
  | some opt =>
    if !p.options.contains opt.Name then
      (p, some ("No " ++ opt.Name ++ " option registered"))
    else
      ({ p with options := p.options.delete opt.Name }, none)

/-- `(*Plugin).GetOption`: the zero value `nil` for an absent name. -/
def Plugin.GetOption (p : Plugin) (name : String) : Nullable Option :=
  p.options.get name

/-- The loop of `getOptionSet` over the entries still to visit. -/
def getOptionSetLoop : List (String × Option) → GoMap String → GoMap String
  | [], options => options
  | (key, option) :: rest, options => getOptionSetLoop rest (options.set key option.Value)

/-- `(*Plugin).getOptionSet`. -/
def Plugin.getOptionSet (p : Plugin) : GoMap String :=
  getOptionSetLoop p.options.entries GoMap.empty

/-- The loop of `getParamList` over the fields still to visit, in declaration
order: a field that cannot be interfaced is skipped, the type name of any other
field is appended. -/
def getParamListLoop : List Field → List String → List String
  | [], paramList => paramList
  | field :: rest, paramList =>
    if !field.CanInterface then getParamListLoop rest paramList
    else getParamListLoop rest (paramList ++ [field.TypeName])

/-- `getParamList`.  For a nil interface value `reflect.ValueOf` gives the zero
`Value`, on which `NumField` faults. -/
def getParamList (method : Nullable ServerMethod) : Outcome (List String) :=
  match method with
  | none => Outcome.panic "reflect: call of reflect.Value.NumField on zero Value"
  | some m => Outcome.ok (getParamListLoop m.fields [])

/-! ## The manifest -/

/-- The `Manifest` struct: `Options` is a slice of pointers, made with `nil`
entries and then filled by index. -/
structure Manifest where
  Options : List (Nullable Option)
  RpcMethods : List RpcMethod
  deriving DecidableEq

/-- The first loop of `GetManifestMethod.Call` over the entries still to visit:
a descriptor is appended unless its callable reports a built-in name.  Asking a
nil callable for its name faults. -/
def manifestMethodsLoop : List (String × RpcMethod) → List RpcMethod → Outcome (List RpcMethod)
  | [], acc => Outcome.ok acc
  | (_, rpc) :: rest, acc =>
    (deref rpc.Method).bind fun m =>
      if !isBuiltInMethod m.Name then manifestMethodsLoop rest (acc ++ [rpc])
      else manifestMethodsLoop rest acc

/-- The second loop of `GetManifestMethod.Call`: `m.Options[i] = option; i++`. -/
def manifestOptionsLoop : List (String × Option) → Nat → List (Nullable Option) →
    List (Nullable Option)
  | [], _, acc => acc
  | (_, option) :: rest, i, acc => manifestOptionsLoop rest (i + 1) (acc.set i (some option))

/-- `GetManifestMethod.Call`, on the plugin the method points to.  The plugin is
only read. -/
def GetManifestMethod.Call (plugin : Plugin) : Outcome (Manifest × GoError) :=
  (manifestMethodsLoop plugin.methods.entries []).bind fun rpcMethods =>
    let options := manifestOptionsLoop plugin.options.entries 0
      (List.replicate plugin.options.len none)
    Outcome.ok ({ Options := options, RpcMethods := rpcMethods }, none)

/-- The descriptor made by `NewManifestRpcMethod`; its callable is a
`GetManifestMethod`, whose only field `plugin` is unexported. -/
def NewManifestRpcMethod : RpcMethod :=
  { Method := some { Name := "getmanifest", fields := [⟨"plugin", "", false⟩] }
    Desc := "Generate manifest for plugin" }

/-! ## The init handler -/

/-- The `InitMethod` struct as the transport fills it from an init request; its
`plugin` field is the plugin passed to `Call`. -/
structure InitMethod where
  Options : GoMap String
  Configuration : Nullable Config
  deriving DecidableEq

/-- The descriptor made by `NewInitRpcMethod`: no description is given. -/
def NewInitRpcMethod : RpcMethod :=
  { Method := some { Name := "init",
                     fields := [⟨"Options", "", true⟩, ⟨"Configuration", "", true⟩,
                                ⟨"plugin", "", false⟩] }
    Desc := "" }

/-- The loop of `InitMethod.Call` over the request's options still to visit:
an unknown name is logged and skipped, a registered option is `Set`. -/
def initOptionsLoop : List (String × String) → GoMap Option → List Event →
    GoMap Option × List Event
  | [], options, log => (options, log)
  | (name, value) :: rest, options, log =>
    match options.get name with
    | none =>
      initOptionsLoop rest options
        (log ++ [Event.logPrintf ("No option " ++ name ++ " registered on this plugin")])
    | some option => initOptionsLoop rest (options.set name (option.Set value)) log

/-- `InitMethod.Call`, on the plugin the method points to.  Returns the plugin
after the call, the events in order, the result and the error. -/
def InitMethod.Call (im : InitMethod) (plugin : Plugin) :
    Outcome (Plugin × List Event × String × GoError) :=
  let (options, log) := initOptionsLoop im.Options.entries plugin.options []
  let p1 : Plugin :=
    { plugin with options := options, Config := im.Configuration, initialized := true }
  (deref p1.initFn).bind fun fn =>
    Outcome.ok (p1, log ++ [Event.initFnCall fn p1.getOptionSet im.Configuration], "ok", none)

/-- `(*Plugin).Start` up to the hand-over to the transport's loop: the two
built-in methods are registered and the errors of the two calls are dropped. -/
def Plugin.Start (p : Plugin) : Outcome Plugin :=
  (p.RegisterMethod (some NewManifestRpcMethod)).bind fun (p1, _) =>
    (p1.RegisterMethod (some NewInitRpcMethod)).bind fun (p2, _) =>
      Outcome.ok p2

end jrpc2

namespace jrpc2

/-! ## Predicates of the specification -/

/-- The method registry and the transport agree on which names are live. -/
def Plugin.Agree (p : Plugin) : Prop :=
  ∀ name : String, name ∈ p.methods.keys ↔ p.server.live name

/-- Plugin states reachable from `NewPlugin` by calls of the controller, in any
number and order; `Start` is two calls of `RegisterMethod`. -/
inductive Reachable : Plugin → Prop
  | newPlugin (fn : Nullable InitFn) : Reachable (NewPlugin fn)
  | registerMethod (p p' : Plugin) (m : Nullable RpcMethod) (e : GoError) :
      Reachable p → p.RegisterMethod m = Outcome.ok (p', e) → Reachable p'
  | unregisterMethod (p p' : Plugin) (m : Nullable RpcMethod) (e : GoError) :
      Reachable p → p.UnregisterMethod m = Outcome.ok (p', e) → Reachable p'
  | registerOption (p : Plugin) (o : Nullable Option) :
      Reachable p → Reachable (p.RegisterOption o).1
  | unregisterOption (p : Plugin) (o : Nullable Option) :
      Reachable p → Reachable (p.UnregisterOption o).1
  | setLogfile (p : Plugin) (filename : String) :
      Reachable p → Reachable (p.SetLogfile filename)
  | init (p p' : Plugin) (im : InitMethod) (ev : List Event) (r : String) (e : GoError) :
      Reachable p → im.Call p = Outcome.ok (p', ev, r, e) → Reachable p'

/-- Every descriptor of the method registry has a callable, and is stored under
the name its callable reports. -/
def Plugin.MethodsKeyed (p : Plugin) : Prop :=
  ∀ kv ∈ p.methods.entries, ∃ c : ServerMethod, kv.2.Method = some c ∧ c.Name = kv.1

/-- Every option of the option registry is stored under its own `Name`. -/
def Plugin.OptionsKeyed (p : Plugin) : Prop :=
  ∀ kv ∈ p.options.entries, kv.2.Name = kv.1

/-- Two listings of one Go map: the same entries, visited by `range` in
possibly different orders. -/
def SameEntries {V : Type} (a b : GoMap V) : Prop :=
  a.entries.Perm b.entries

/-- The event is a call of the init callback. -/
def Event.isInitFnCall : Event → Bool
  | Event.initFnCall _ _ _ => true
  | Event.logPrintf _ => false

/-! ## Example data -/

/-- An init callback. -/
def onInit : InitFn := { id := 0 }

/-- The option of the specification's example: default `42`, never set. -/
def answerOption : Option := NewOption "answer" "" "42"

/-- A plugin on which `answerOption` has been registered. -/
def pluginWithAnswer : Plugin :=
  { NewPlugin (some onInit) with options := ⟨[("answer", answerOption)], by decide⟩ }

/-- The configuration of the specification's end-to-end example. -/
def tmpConfig : Config := { LightningDir := "/tmp/x", RpcFile := "/tmp/x/rpc" }

/-- An init request that sets `answer` to `7` and names an option `verbose`
that no plugin of the examples registers. -/
def initRequest : InitMethod :=
  { Options := ⟨[("answer", "7"), ("verbose", "1")], by decide⟩
    Configuration := some tmpConfig }

/-- The plugin made by `NewPlugin(nil)` on which `answerOption` has been
registered: it has no init callback. -/
def answerWithoutCallback : Plugin :=
  { NewPlugin none with options := ⟨[("answer", answerOption)], by decide⟩ }

/-- The plugin made by `NewPlugin(nil)` that already holds a configuration. -/
def configuredWithoutCallback : Plugin :=
  { NewPlugin none with Config := some { LightningDir := "/old", RpcFile := "/old/rpc" } }

/-- A callable named `ping` with no fields. -/
def pingCallable : ServerMethod := { Name := "ping", fields := [] }

/-- The descriptor of the end-to-end example of the specification. -/
def pingMethod : RpcMethod := NewRpcMethod (some pingCallable) "replies pong"

/-- A second descriptor whose callable reports the same name. -/
def pingAgain : RpcMethod := NewRpcMethod (some pingCallable) "another ping"

/-- A callable named `pong`, never registered in the examples. -/
def pongCallable : ServerMethod := { Name := "pong", fields := [] }

/-- The descriptor of `pongCallable`. -/
def pongMethod : RpcMethod := NewRpcMethod (some pongCallable) ""

/-- A plugin on which `ping` has been registered. -/
def pluginWithPing : Plugin :=
  { NewPlugin (some onInit) with
    server := { registry := ⟨[("ping", pingCallable)], by decide⟩ }
    methods := ⟨[("ping", pingMethod)], by decide⟩ }

/-- The plugin after `ping` was registered and `Start` added the two built-in
methods. -/
def pluginStarted : Plugin :=
  { NewPlugin (some onInit) with
    server := { registry := ⟨[("ping", pingCallable),
                              ("getmanifest", ⟨"getmanifest", [⟨"plugin", "", false⟩]⟩),
                              ("init", ⟨"init", [⟨"Options", "", true⟩,
                                ⟨"Configuration", "", true⟩, ⟨"plugin", "", false⟩]⟩)],
                             by decide⟩ }
    methods := ⟨[("ping", pingMethod), ("getmanifest", NewManifestRpcMethod),
                 ("init", NewInitRpcMethod)], by decide⟩ }

/-- The started plugin with its method registry visited in another order. -/
def pluginStartedReordered : Plugin :=
  { pluginStarted with
    methods := ⟨[("init", NewInitRpcMethod), ("ping", pingMethod),
                 ("getmanifest", NewManifestRpcMethod)], by decide⟩ }

/-- A callable with two exported fields around an unexported one. -/
def payCallable : ServerMethod :=
  { Name := "pay"
    fields := [⟨"Bolt11", "string", true⟩, ⟨"plugin", "", false⟩, ⟨"Amount", "uint64", true⟩] }

end jrpc2

/-! ## The example plugin `pl_htlcacc` (htlcacc.go) -/

namespace htlcacc

/-- A Go string: a sequence of bytes; `len` and slicing count bytes. -/
abbrev GoString : Type := List UInt8

/-- A value of Go's `int` (64 bits) after an operation: the mathematical result
wrapped into the range from `-2^63` to `2^63 - 1`. -/
def wrapInt (x : Int) : Int := (x + 2 ^ 63) % 2 ^ 64 - 2 ^ 63

/-- The conversion `uint64(x)` of an `int`. -/
def toUint64 (x : Int) : Nat := (x % 2 ^ 64).toNat

/-- The slice expression `s[:hi]`: faults when `hi` is negative or beyond the
length. -/
def sliceTo (s : GoString) (hi : Int) : Outcome GoString :=
  if hi < 0 ∨ (s.length : Int) < hi then Outcome.panic "slice bounds out of range"
  else Outcome.ok (s.take hi.toNat)

/-- The two errors of `strconv`. -/
inductive NumError where
  | ErrSyntax
  | ErrRange
  deriving DecidableEq, Repr

/-- The largest `uint64`. -/
def maxUint64 : Nat := 2 ^ 64 - 1

/-- The byte is one of `0` to `9`. -/
def isDigit (c : UInt8) : Bool := 48 ≤ c.toNat && c.toNat ≤ 57

/-- The loop of `strconv.ParseUint` (Go's standard library) for base 10 and 64
bits, over the bytes still to read: a byte that is no decimal digit is a syntax
error with value 0, an overflow is a range error with the largest value. -/
def parseUintLoop : List UInt8 → Nat → Nat × Nullable NumError
  | [], n => (n, none)
  | c :: rest, n =>
    if !isDigit c then (0, some NumError.ErrSyntax)
    else if n ≥ maxUint64 / 10 + 1 then (maxUint64, some NumError.ErrRange)
    else if n * 10 + (c.toNat - 48) > maxUint64 then (maxUint64, some NumError.ErrRange)
    else parseUintLoop rest (n * 10 + (c.toNat - 48))

/-- `strconv.ParseUint(s, 10, 64)`. -/
def ParseUint (s : GoString) : Nat × Nullable NumError :=
  if s = [] then (0, some NumError.ErrSyntax) else parseUintLoop s 0

/-- `strconv.ParseInt(s, 10, 0)` with a 64-bit `int`: an optional sign, then
`ParseUint`; a syntax error gives 0, a magnitude out of range gives the nearest
bound and a range error. -/
def ParseInt (s : GoString) : Int × Nullable NumError :=
  match s with
  | [] => (0, some NumError.ErrSyntax)
  | c :: rest =>
    let neg : Bool := c == 45
    let body : GoString := if c == 43 || c == 45 then rest else c :: rest
    let r := ParseUint body
    if r.2 = some NumError.ErrSyntax then (0, some NumError.ErrSyntax)
    else if !neg && r.1 ≥ 2 ^ 63 then (2 ^ 63 - 1, some NumError.ErrRange)
    else if neg && r.1 > 2 ^ 63 then (-(2 ^ 63), some NumError.ErrRange)
    else (if neg then wrapInt (-(wrapInt r.1)) else wrapInt r.1, none)

/-- `strconv.Atoi`, documented as `ParseInt(s, 10, 0)` converted to `int`. -/
def Atoi (s : GoString) : Int × Nullable NumError := ParseInt s

/-- The fields of the onion of an `HtlcAcceptedEvent` that `OnHtlcAccepted`
reads before it builds the amount record. -/
structure Onion where
  ForwardAmount : GoString
  TotalMilliSatoshi : GoString
  deriving DecidableEq, Repr

/-- The statements of `OnHtlcAccepted` up to `amtf := uint64(OutgoingAmountMsat + 1)`,
the value given to `record.NewAmtToFwdRecord`: both amount strings are sliced
and converted, the conversion errors are dropped, and the statements in between
cannot fault. -/
def OnHtlcAccepted_amtf (onion : Onion) : Outcome Nat :=
  (sliceTo onion.ForwardAmount ((onion.ForwardAmount.length : Int) - 4)).bind
    fun milliSatoshiOutAmount =>
      let OutgoingAmountMsat := (Atoi milliSatoshiOutAmount).1
      (sliceTo onion.TotalMilliSatoshi ((onion.TotalMilliSatoshi.length : Int) - 4)).bind
        fun milliSatoshiTotalAmount =>
          let _incomingAmountMsat := (Atoi milliSatoshiTotalAmount).1
          Outcome.ok (toUint64 (wrapInt (OutgoingAmountMsat + 1)))

/-- The decimal value of a string of digits read after the value `n`. -/
def decimalValue : List UInt8 → Nat → Nat
  | [], n => n
  | c :: rest, n => decimalValue rest (n * 10 + (c.toNat - 48))

/-- The bytes of `1000msat`. -/
def msat1000 : GoString := [49, 48, 48, 48, 109, 115, 97, 116]

/-- The bytes of `2000msat`. -/
def msat2000 : GoString := [50, 48, 48, 48, 109, 115, 97, 116]

/-- An onion forwarding `1000msat` of a total of `2000msat`. -/
def exampleOnion : Onion := { ForwardAmount := msat1000, TotalMilliSatoshi := msat2000 }

/-- The bytes of `-5msat`. -/
def msatMinus5 : GoString := [45, 53, 109, 115, 97, 116]

end htlcacc

/-! ## Lemmas on Go maps -/

namespace AssocList

variable {V : Type}

theorem mem_keys_set (k : String) (v : V) (l : List (String × V)) (x : String) :
    x ∈ keys (set k v l) ↔ x = k ∨ x ∈ keys l := by
  rw [keys_set]
  split
  · constructor
    · exact Or.inr
    · rintro (h | h)
      · subst h; assumption
      · exact h
  · simp [or_comm]

theorem mem_keys_del (k : String) (l : List (String × V)) (x : String) :
    x ∈ keys (del k l) ↔ x ≠ k ∧ x ∈ keys l := by
  rw [keys_del]
  simp [List.mem_filter, and_comm]

theorem get_eq_none_iff (k : String) (l : List (String × V)) :
    get k l = none ↔ k ∉ keys l := by
  induction l with
  | nil => simp [get, keys]
  | cons p t ih =>
    obtain ⟨k', v'⟩ := p
    simp only [keys] at ih
    by_cases h : k' = k
    · simp [get, keys, h]
    · have h' : ¬ k = k' := fun e => h e.symm
      simp [get, keys, h, h', ih]

theorem get_set_self (k : String) (v : V) (l : List (String × V)) :
    get k (set k v l) = some v := by
  induction l with
  | nil => simp [get, set]
  | cons p t ih =>
    obtain ⟨k', v'⟩ := p
    by_cases h : k' = k
    · simp [get, set, h]
    · simp [get, set, h, ih]

theorem get_set_ne (k x : String) (v : V) (l : List (String × V)) (hx : x ≠ k) :
    get x (set k v l) = get x l := by
  induction l with
  | nil =>
    have : ¬ k = x := fun e => hx e.symm
    simp [get, set, this]
  | cons p t ih =>
    obtain ⟨k', v'⟩ := p
    by_cases h : k' = k
    · subst h
      have : ¬ k' = x := fun e => hx e.symm
      simp [get, set, this]
    · by_cases h2 : k' = x
      · subst h2
        simp [get, set, h]
      · simp [get, set, h, h2, ih]

theorem get_del_self (k : String) (l : List (String × V)) :
    get k (del k l) = none := by
  rw [get_eq_none_iff, mem_keys_del]
  simp

theorem get_del_ne (k x : String) (l : List (String × V)) (hx : x ≠ k) :
    get x (del k l) = get x l := by
  induction l with
  | nil => simp [get, del]
  | cons p t ih =>
    obtain ⟨k', v'⟩ := p
    by_cases h : k' = k
    · subst h
      have : ¬ k' = x := fun e => hx e.symm
      simp [get, del, this, ih]
    · by_cases h2 : k' = x
      · subst h2
        simp [get, del, h]
      · simp [get, del, h, h2, ih]

theorem del_of_not_mem (k : String) (l : List (String × V)) (h : k ∉ keys l) :
    del k l = l := by
  induction l with
  | nil => rfl
  | cons p t ih =>
    obtain ⟨k', v'⟩ := p
    simp only [keys, List.map_cons, List.mem_cons, not_or] at h
    have h1 : ¬ k' = k := fun e => h.1 e.symm
    simp only [del, if_neg h1]
    rw [ih h.2]

theorem length_set (k : String) (v : V) (l : List (String × V)) :
    (set k v l).length = if k ∈ keys l then l.length else l.length + 1 := by
  have e := congrArg List.length (keys_set k v l)
  by_cases h : k ∈ keys l
  · rw [if_pos h] at e ⊢
    simpa [keys] using e
  · rw [if_neg h] at e ⊢
    simpa [keys] using e

theorem length_del_of_mem (k : String) (l : List (String × V))
    (hn : (keys l).Nodup) (h : k ∈ keys l) :
    (del k l).length + 1 = l.length := by
  induction l with
  | nil => simp [keys] at h
  | cons p t ih =>
    obtain ⟨k', v'⟩ := p
    simp only [keys, List.map_cons, List.nodup_cons] at hn
    by_cases h1 : k' = k
    · subst h1
      simp only [del, if_true]
      rw [del_of_not_mem k' t hn.1]
      simp
    · simp only [keys, List.map_cons, List.mem_cons] at h
      have h2 : k ∈ keys t := by
        rcases h with h | h
        · exact absurd h.symm h1
        · exact h
      simp only [del, if_neg h1, List.length_cons]
      rw [ih hn.2 h2]

theorem filter_key_of_get (k : String) (v : V) (l : List (String × V))
    (hn : (keys l).Nodup) (h : get k l = some v) :
    l.filter (fun kv => decide (kv.1 = k)) = [(k, v)] := by
  induction l with
  | nil => simp [get] at h
  | cons p t ih =>
    obtain ⟨k', v'⟩ := p
    simp only [keys, List.map_cons, List.nodup_cons] at hn
    by_cases h1 : k' = k
    · subst h1
      simp only [get, if_true, Option.some.injEq] at h
      subst h
      have hnone : ∀ kv ∈ t, ¬ kv.1 = k' := by
        intro kv hkv e
        exact hn.1 (List.mem_map.mpr ⟨kv, hkv, e⟩)
      have : t.filter (fun kv => decide (kv.1 = k')) = [] := by
        rw [List.filter_eq_nil_iff]
        intro kv hkv
        simpa using hnone kv hkv
      simp [List.filter_cons, this]
    · simp only [get, if_neg h1] at h
      simp [List.filter_cons, h1, ih hn.2 h]

theorem mem_of_get (k : String) (v : V) (l : List (String × V)) (h : get k l = some v) :
    (k, v) ∈ l := by
  induction l with
  | nil => simp [get] at h
  | cons p t ih =>
    obtain ⟨k', v'⟩ := p
    by_cases h1 : k' = k
    · subst h1
      simp only [get, if_true, Option.some.injEq] at h
      subst h
      exact List.mem_cons_self _ _
    · simp only [get, if_neg h1] at h
      exact List.mem_cons_of_mem _ (ih h)

theorem get_of_mem (k : String) (v : V) (l : List (String × V))
    (hn : (keys l).Nodup) (h : (k, v) ∈ l) : get k l = some v := by
  induction l with
  | nil => simp at h
  | cons p t ih =>
    obtain ⟨k', v'⟩ := p
    simp only [keys, List.map_cons, List.nodup_cons] at hn
    rcases List.mem_cons.mp h with e | e
    · cases e
      simp [get]
    · have hk : k ∈ List.map Prod.fst t := List.mem_map.mpr ⟨(k, v), e, rfl⟩
      have h1 : ¬ k' = k := fun e1 => hn.1 (e1 ▸ hk)
      simp only [get, if_neg h1]
      exact ih hn.2 e

end AssocList

namespace GoMap

variable {V : Type}

theorem ext_entries {a b : GoMap V} (h : a.entries = b.entries) : a = b := by
  cases a
  cases b
  cases h
  rfl

theorem contains_iff (m : GoMap V) (k : String) : m.contains k = true ↔ k ∈ m.keys := by
  unfold contains get keys
  cases h : AssocList.get k m.entries with
  | none =>
    have := (AssocList.get_eq_none_iff k m.entries).mp h
    simp [this]
  | some v =>
    have : k ∈ AssocList.keys m.entries := by
      by_contra hc
      rw [(AssocList.get_eq_none_iff k m.entries).mpr hc] at h
      cases h
    simp [this]

theorem contains_eq_false_iff (m : GoMap V) (k : String) :
    m.contains k = false ↔ k ∉ m.keys := by
  rw [← contains_iff]
  cases m.contains k <;> simp

theorem lookup_eq_none_iff (m : GoMap V) (k : String) : m.get k = none ↔ k ∉ m.keys :=
  AssocList.get_eq_none_iff k m.entries

theorem lookup_set_self (m : GoMap V) (k : String) (v : V) : (m.set k v).get k = some v :=
  AssocList.get_set_self k v m.entries

theorem lookup_set_ne (m : GoMap V) (k x : String) (v : V) (h : x ≠ k) :
    (m.set k v).get x = m.get x :=
  AssocList.get_set_ne k x v m.entries h

theorem lookup_delete_self (m : GoMap V) (k : String) : (m.delete k).get k = none :=
  AssocList.get_del_self k m.entries

theorem lookup_delete_ne (m : GoMap V) (k x : String) (h : x ≠ k) :
    (m.delete k).get x = m.get x :=
  AssocList.get_del_ne k x m.entries h

theorem mem_keys_set_iff (m : GoMap V) (k x : String) (v : V) :
    x ∈ (m.set k v).keys ↔ x = k ∨ x ∈ m.keys :=
  AssocList.mem_keys_set k v m.entries x

theorem mem_keys_delete (m : GoMap V) (k x : String) :
    x ∈ (m.delete k).keys ↔ x ≠ k ∧ x ∈ m.keys :=
  AssocList.mem_keys_del k m.entries x

theorem keys_set_of_mem (m : GoMap V) (k : String) (v : V) (h : k ∈ m.keys) :
    (m.set k v).keys = m.keys := by
  unfold keys set
  simp only [AssocList.keys_set]
  exact if_pos h

theorem delete_of_not_mem (m : GoMap V) (k : String) (h : k ∉ m.keys) : m.delete k = m :=
  ext_entries (AssocList.del_of_not_mem k m.entries h)

theorem len_set_of_not_mem (m : GoMap V) (k : String) (v : V) (h : k ∉ m.keys) :
    (m.set k v).len = m.len + 1 := by
  unfold len set
  simp only [AssocList.length_set]
  exact if_neg h

theorem len_delete_of_mem (m : GoMap V) (k : String) (h : k ∈ m.keys) :
    (m.delete k).len + 1 = m.len :=
  AssocList.length_del_of_mem k m.entries m.nodup h

theorem entries_filter_key (m : GoMap V) (k : String) (v : V) (h : m.get k = some v) :
    m.entries.filter (fun kv => decide (kv.1 = k)) = [(k, v)] :=
  AssocList.filter_key_of_get k v m.entries m.nodup h

end GoMap

/-! ## Method registration -/

namespace jrpc2

theorem RegisterMethod_eq (p : Plugin) (m : RpcMethod) (c : ServerMethod)
    (hm : m.Method = some c) :
    p.RegisterMethod (some m) =
      if p.server.registry.contains c.Name then
        Outcome.ok (p, some "Method already registered")
      else if p.methods.contains c.Name then
        Outcome.ok ({ p with server := { registry := (p.server.registry.set c.Name c).delete c.Name } },
          some ("Method `" ++ c.Name ++ "` already registered"))
      else
        Outcome.ok ({ p with server := { registry := p.server.registry.set c.Name c },
                             methods := p.methods.set c.Name m }, none) := by
  by_cases h1 : p.server.registry.contains c.Name = true
  · simp [Plugin.RegisterMethod, Server.Register, deref, Outcome.bind, hm, h1]
  · by_cases h2 : p.methods.contains c.Name = true
    · have h3 : (p.server.registry.set c.Name c).contains c.Name = true := by
        simp [GoMap.contains, GoMap.lookup_set_self]
      simp [Plugin.RegisterMethod, Plugin.registerRpcMethod, Server.Register, Server.Unregister,
        deref, Outcome.bind, hm, h1, h2, h3]
    · simp [Plugin.RegisterMethod, Plugin.registerRpcMethod, Server.Register,
        deref, Outcome.bind, hm, h1, h2]

theorem UnregisterMethod_eq (p : Plugin) (m : RpcMethod) (c : ServerMethod)
    (hm : m.Method = some c) :
    p.UnregisterMethod (some m) =
      if p.server.registry.contains c.Name then
        Outcome.ok ({ p with methods := p.methods.delete c.Name,
                             server := { registry := p.server.registry.delete c.Name } }, none)
      else
        Outcome.ok ({ p with methods := p.methods.delete c.Name }, some "Method not registered") := by
  by_cases h1 : p.server.registry.contains c.Name = true
  · simp [Plugin.UnregisterMethod, Plugin.unregisterMethod, Server.Unregister, deref,
      Outcome.bind, hm, h1]
  · simp [Plugin.UnregisterMethod, Plugin.unregisterMethod, Server.Unregister, deref,
      Outcome.bind, hm, h1]

end jrpc2

namespace jrpc2

/-- C1: when `RegisterMethod` has succeeded for a descriptor, `RegisterMethod`
for a second descriptor whose callable reports the same name returns an error
and changes nothing: the method registry is the one left by the first call, it
holds exactly one entry for that name, and that entry is the first
descriptor. -/
theorem RegisterMethod_same_name_twice (p p1 : Plugin) (m1 m2 : RpcMethod)
    (c1 c2 : ServerMethod) (h1 : m1.Method = some c1) (h2 : m2.Method = some c2)
    (hname : c1.Name = c2.Name)
    (hfirst : p.RegisterMethod (some m1) = Outcome.ok (p1, none)) :
    ∃ e : String, p1.RegisterMethod (some m2) = Outcome.ok (p1, some e) ∧
      p1.methods.get c1.Name = some m1 ∧
      p1.methods.entries.filter (fun kv => decide (kv.1 = c1.Name)) = [(c1.Name, m1)] := by
  rw [RegisterMethod_eq p m1 c1 h1] at hfirst
  by_cases ha : p.server.registry.contains c1.Name = true
  · simp [ha] at hfirst
  · by_cases hb : p.methods.contains c1.Name = true
    · simp [ha, hb] at hfirst
    · simp only [ha, hb, if_false, Bool.false_eq_true, Outcome.ok.injEq, Prod.mk.injEq,
        and_true] at hfirst
      subst hfirst
      have hlive : (p.server.registry.set c1.Name c1).contains c2.Name = true := by
        rw [← hname]
        simp [GoMap.contains, GoMap.lookup_set_self]
      have hget : (p.methods.set c1.Name m1).get c1.Name = some m1 :=
        GoMap.lookup_set_self _ _ _
      refine ⟨"Method already registered", ?_, hget, GoMap.entries_filter_key _ _ _ hget⟩
      rw [RegisterMethod_eq _ m2 c2 h2]
      simp [hlive]

/-- Witness of C1: `ping` registered twice on a fresh plugin. -/
theorem RegisterMethod_same_name_twice_witness :
    (NewPlugin (some onInit)).RegisterMethod (some pingMethod) = Outcome.ok (pluginWithPing, none) ∧
    ∃ e : String, pluginWithPing.RegisterMethod (some pingAgain) =
        Outcome.ok (pluginWithPing, some e) ∧
      pluginWithPing.methods.get pingCallable.Name = some pingMethod ∧
      pluginWithPing.methods.entries.filter (fun kv => decide (kv.1 = pingCallable.Name)) =
        [(pingCallable.Name, pingMethod)] :=
  ⟨by decide,
   RegisterMethod_same_name_twice (NewPlugin (some onInit)) pluginWithPing pingMethod pingAgain
     pingCallable pingCallable rfl rfl rfl (by decide)⟩

/-- C2: with the transport a set of live names, agreement between the keys of
the method registry and the transport's live names is preserved by
`RegisterMethod` and by `UnregisterMethod` for every descriptor with a non-nil
callable, whether the call returns an error or not; both calls return, and after
`UnregisterMethod` the name is live on neither side. -/
theorem Agree_preserved (p : Plugin) (m : RpcMethod) (c : ServerMethod)
    (hm : m.Method = some c) (hagree : p.Agree) :
    (∃ (p' : Plugin) (e : GoError),
        p.RegisterMethod (some m) = Outcome.ok (p', e) ∧ p'.Agree) ∧
    (∃ (p' : Plugin) (e : GoError),
        p.UnregisterMethod (some m) = Outcome.ok (p', e) ∧ p'.Agree ∧
        c.Name ∉ p'.methods.keys ∧ ¬ p'.server.live c.Name) := by
  have hk : p.methods.contains c.Name = p.server.registry.contains c.Name := by
    have h := hagree c.Name
    unfold Server.live at h
    rw [← GoMap.contains_iff, ← GoMap.contains_iff] at h
    cases h1 : p.methods.contains c.Name <;> cases h2 : p.server.registry.contains c.Name <;>
      simp_all
  constructor
  · rw [RegisterMethod_eq p m c hm]
    by_cases ha : p.server.registry.contains c.Name = true
    · rw [if_pos ha]
      exact ⟨p, _, rfl, hagree⟩
    · have hb : ¬ p.methods.contains c.Name = true := by rw [hk]; exact ha
      rw [if_neg ha, if_neg hb]
      refine ⟨_, none, rfl, ?_⟩
      intro name
      unfold Server.live
      simp only [GoMap.mem_keys_set_iff]
      have := hagree name
      unfold Server.live at this
      rw [this]
  · rw [UnregisterMethod_eq p m c hm]
    by_cases ha : p.server.registry.contains c.Name = true
    · rw [if_pos ha]
      refine ⟨_, none, rfl, ?_, ?_, ?_⟩
      · intro name
        unfold Server.live
        simp only [GoMap.mem_keys_delete]
        have := hagree name
        unfold Server.live at this
        rw [this]
      · simp [GoMap.mem_keys_delete]
      · unfold Server.live
        simp [GoMap.mem_keys_delete]
    · have hb : p.methods.contains c.Name = false := by
        rw [hk]
        simpa using ha
      have hnot : c.Name ∉ p.methods.keys := (GoMap.contains_eq_false_iff _ _).mp hb
      have hnot2 : c.Name ∉ p.server.registry.keys := by
        rw [← GoMap.contains_iff]
        exact ha
      rw [if_neg ha]
      refine ⟨_, some "Method not registered", rfl, ?_, ?_, ?_⟩
      · intro name
        unfold Server.live
        simp only [GoMap.delete_of_not_mem _ _ hnot]
        exact hagree name
      · simp [GoMap.mem_keys_delete]
      · exact hnot2

/-- Witness of C2: the plugin holding `ping` on both sides, and `ping`. -/
theorem Agree_preserved_witness :
    pluginWithPing.Agree ∧
    (∃ (p' : Plugin) (e : GoError),
        pluginWithPing.RegisterMethod (some pingMethod) = Outcome.ok (p', e) ∧ p'.Agree) ∧
    (∃ (p' : Plugin) (e : GoError),
        pluginWithPing.UnregisterMethod (some pingMethod) = Outcome.ok (p', e) ∧ p'.Agree ∧
        pingCallable.Name ∉ p'.methods.keys ∧ ¬ p'.server.live pingCallable.Name) :=
  have h : pluginWithPing.Agree := fun name => by
    simp [Server.live, pluginWithPing, GoMap.keys, AssocList.keys]
  ⟨h, Agree_preserved pluginWithPing pingMethod pingCallable rfl h⟩

/-- C10: when the method registry and the transport agree on the live names,
`UnregisterMethod` for a descriptor with a non-nil callable whose name is not
registered returns an error and leaves the method registry, and so its size,
unchanged. -/
theorem UnregisterMethod_unknown (p : Plugin) (m : RpcMethod) (c : ServerMethod)
    (hm : m.Method = some c) (hagree : p.Agree) (hnew : c.Name ∉ p.methods.keys) :
    ∃ (p' : Plugin) (e : String),
      p.UnregisterMethod (some m) = Outcome.ok (p', some e) ∧
      p'.methods = p.methods ∧ p'.methods.len = p.methods.len := by
  have hlive : ¬ p.server.registry.contains c.Name = true := by
    rw [GoMap.contains_iff]
    exact fun h => hnew ((hagree c.Name).mpr h)
  rw [UnregisterMethod_eq p m c hm, if_neg hlive]
  refine ⟨{ p with methods := p.methods.delete c.Name }, "Method not registered", rfl, ?_, ?_⟩
  · exact GoMap.delete_of_not_mem _ _ hnew
  · simp only [GoMap.delete_of_not_mem _ _ hnew]

/-- Witness of C10: `pong` was never registered on the plugin holding `ping`. -/
theorem UnregisterMethod_unknown_witness :
    pluginWithPing.Agree ∧ pongCallable.Name ∉ pluginWithPing.methods.keys ∧
    ∃ (p' : Plugin) (e : String),
      pluginWithPing.UnregisterMethod (some pongMethod) = Outcome.ok (p', some e) ∧
      p'.methods = pluginWithPing.methods ∧ p'.methods.len = pluginWithPing.methods.len :=
  have h : pluginWithPing.Agree := fun name => by
    simp [Server.live, pluginWithPing, GoMap.keys, AssocList.keys]
  have hn : pongCallable.Name ∉ pluginWithPing.methods.keys := by decide
  ⟨h, hn, UnregisterMethod_unknown pluginWithPing pongMethod pongCallable rfl h hn⟩

end jrpc2

/-! ## The manifest's method list -/

namespace AssocList

variable {V : Type}

theorem mem_set_cases (k : String) (v : V) (l : List (String × V)) (kv : String × V)
    (h : kv ∈ set k v l) : kv = (k, v) ∨ kv ∈ l := by
  induction l with
  | nil =>
    simp only [set, List.mem_singleton] at h
    exact Or.inl h
  | cons p t ih =>
    obtain ⟨k', v'⟩ := p
    by_cases h1 : k' = k
    · simp only [set, if_pos h1, List.mem_cons] at h
      rcases h with h | h
      · exact Or.inl h
      · exact Or.inr (List.mem_cons_of_mem _ h)
    · simp only [set, if_neg h1, List.mem_cons] at h
      rcases h with h | h
      · exact Or.inr (h ▸ List.mem_cons_self _ _)
      · rcases ih h with h2 | h2
        · exact Or.inl h2
        · exact Or.inr (List.mem_cons_of_mem _ h2)

theorem mem_of_mem_del (k : String) (l : List (String × V)) (kv : String × V)
    (h : kv ∈ del k l) : kv ∈ l := by
  induction l with
  | nil => simp [del] at h
  | cons p t ih =>
    obtain ⟨k', v'⟩ := p
    by_cases h1 : k' = k
    · simp only [del, if_pos h1] at h
      exact List.mem_cons_of_mem _ (ih h)
    · simp only [del, if_neg h1, List.mem_cons] at h
      rcases h with h | h
      · exact h ▸ List.mem_cons_self _ _
      · exact List.mem_cons_of_mem _ (ih h)

theorem nodup_of_nodup_keys (l : List (String × V)) (h : (keys l).Nodup) : l.Nodup :=
  List.Nodup.of_map Prod.fst h

end AssocList

namespace jrpc2

theorem isBuiltInMethod_eq_false_iff (name : String) :
    isBuiltInMethod name = false ↔ name ≠ "getmanifest" ∧ name ≠ "init" := by
  simp [isBuiltInMethod]

theorem RegisterOption_methods (p : Plugin) (o : Nullable Option) :
    (p.RegisterOption o).1.methods = p.methods := by
  unfold Plugin.RegisterOption
  cases o with
  | none => rfl
  | some opt =>
    simp only []
    split <;> rfl

theorem UnregisterOption_methods (p : Plugin) (o : Nullable Option) :
    (p.UnregisterOption o).1.methods = p.methods := by
  unfold Plugin.UnregisterOption
  cases o with
  | none => rfl
  | some opt =>
    simp only []
    split <;> rfl

theorem InitMethod_Call_eq (im : InitMethod) (p : Plugin) (fn : InitFn)
    (hfn : p.initFn = some fn) :
    im.Call p =
      Outcome.ok
        ({ p with options := (initOptionsLoop im.Options.entries p.options []).1,
                  Config := im.Configuration, initialized := true },
         (initOptionsLoop im.Options.entries p.options []).2 ++
           [Event.initFnCall fn
             (Plugin.getOptionSet
               { p with options := (initOptionsLoop im.Options.entries p.options []).1,
                        Config := im.Configuration, initialized := true })
             im.Configuration],
         "ok", none) := by
  simp [InitMethod.Call, deref, Outcome.bind, hfn]

theorem InitMethod_Call_ok_inv (im : InitMethod) (p p' : Plugin) (ev : List Event)
    (r : String) (e : GoError) (h : im.Call p = Outcome.ok (p', ev, r, e)) :
    p' = { p with options := (initOptionsLoop im.Options.entries p.options []).1,
                  Config := im.Configuration, initialized := true } := by
  rcases Option.eq_none_or_eq_some p.initFn with hfn | ⟨fn, hfn⟩
  · simp [InitMethod.Call, deref, Outcome.bind, hfn] at h
  · rw [InitMethod_Call_eq im p fn hfn] at h
    simp only [Outcome.ok.injEq, Prod.mk.injEq] at h
    exact h.1.symm

theorem RegisterMethod_keyed (p p' : Plugin) (m : Nullable RpcMethod) (e : GoError)
    (h : p.RegisterMethod m = Outcome.ok (p', e)) (hk : p.MethodsKeyed) : p'.MethodsKeyed := by
  cases m with
  | none => simp [Plugin.RegisterMethod, deref, Outcome.bind] at h
  | some r =>
    cases hm : r.Method with
    | none =>
      simp [Plugin.RegisterMethod, Server.Register, deref, Outcome.bind, hm] at h
    | some c =>
      rw [RegisterMethod_eq p r c hm] at h
      by_cases ha : p.server.registry.contains c.Name = true
      · rw [if_pos ha] at h
        cases h
        exact hk
      · by_cases hb : p.methods.contains c.Name = true
        · rw [if_neg ha, if_pos hb] at h
          cases h
          exact hk
        · rw [if_neg ha, if_neg hb] at h
          cases h
          intro kv hkv
          rcases AssocList.mem_set_cases _ _ _ _ hkv with h1 | h1
          · subst h1
            exact ⟨c, hm, rfl⟩
          · exact hk kv h1

theorem UnregisterMethod_keyed (p p' : Plugin) (m : Nullable RpcMethod) (e : GoError)
    (h : p.UnregisterMethod m = Outcome.ok (p', e)) (hk : p.MethodsKeyed) : p'.MethodsKeyed := by
  cases m with
  | none =>
    simp [Plugin.UnregisterMethod, Plugin.unregisterMethod, deref, Outcome.bind] at h
  | some r =>
    cases hm : r.Method with
    | none =>
      simp [Plugin.UnregisterMethod, Plugin.unregisterMethod, Server.Unregister, deref,
        Outcome.bind, hm] at h
    | some c =>
      rw [UnregisterMethod_eq p r c hm] at h
      by_cases ha : p.server.registry.contains c.Name = true
      · rw [if_pos ha] at h
        cases h
        intro kv hkv
        exact hk kv (AssocList.mem_of_mem_del _ _ _ hkv)
      · rw [if_neg ha] at h
        cases h
        intro kv hkv
        exact hk kv (AssocList.mem_of_mem_del _ _ _ hkv)

theorem Reachable_methodsKeyed (p : Plugin) (h : Reachable p) : p.MethodsKeyed := by
  induction h with
  | newPlugin fn =>
    intro kv hkv
    simp [NewPlugin, GoMap.empty] at hkv
  | registerMethod p p' m e _ hstep ih => exact RegisterMethod_keyed p p' m e hstep ih
  | unregisterMethod p p' m e _ hstep ih => exact UnregisterMethod_keyed p p' m e hstep ih
  | registerOption p o _ ih =>
    unfold Plugin.MethodsKeyed
    rw [RegisterOption_methods]
    exact ih
  | unregisterOption p o _ ih =>
    unfold Plugin.MethodsKeyed
    rw [UnregisterOption_methods]
    exact ih
  | setLogfile p filename _ ih => exact ih
  | init p p' im ev r e _ hstep ih =>
    rw [InitMethod_Call_ok_inv im p p' ev r e hstep]
    exact ih

theorem manifestMethodsLoop_eq (l : List (String × RpcMethod)) (acc : List RpcMethod)
    (hk : ∀ kv ∈ l, ∃ c : ServerMethod, kv.2.Method = some c ∧ c.Name = kv.1) :
    manifestMethodsLoop l acc =
      Outcome.ok (acc ++ (l.filter (fun kv => !isBuiltInMethod kv.1)).map Prod.snd) := by
  induction l generalizing acc with
  | nil => simp [manifestMethodsLoop]
  | cons p t ih =>
    obtain ⟨k, r⟩ := p
    obtain ⟨c, hc, hn⟩ := hk (k, r) (List.mem_cons_self _ _)
    have ht : ∀ kv ∈ t, ∃ c : ServerMethod, kv.2.Method = some c ∧ c.Name = kv.1 :=
      fun kv hkv => hk kv (List.mem_cons_of_mem _ hkv)
    simp only at hc hn
    subst hn
    cases hb : isBuiltInMethod c.Name with
    | true => simp [manifestMethodsLoop, deref, Outcome.bind, hc, hb, ih _ ht, List.filter_cons]
    | false => simp [manifestMethodsLoop, deref, Outcome.bind, hc, hb, ih _ ht, List.filter_cons]

end jrpc2

namespace jrpc2

theorem GetManifestMethod_Call_eq (p : Plugin) (hk : p.MethodsKeyed) :
    GetManifestMethod.Call p =
      Outcome.ok
        ({ Options := manifestOptionsLoop p.options.entries 0
                        (List.replicate p.options.len none),
           RpcMethods := (p.methods.entries.filter
                            (fun kv => !isBuiltInMethod kv.1)).map Prod.snd }, none) := by
  have hloop := manifestMethodsLoop_eq p.methods.entries [] hk
  simp only [List.nil_append] at hloop
  simp only [GetManifestMethod.Call, hloop, Outcome.bind]

end jrpc2

namespace jrpc2

/-- C3: in every plugin state reachable by calls of the controller, the method
registry is keyed by the names the callables report, `GetManifestMethod.Call`
returns a manifest without error, no entry of its `RpcMethods` is named
`getmanifest` or `init`, every registered descriptor with another name occurs in
it exactly once, every entry of it is registered, and its length is the number
of registered names that are not built-in names. -/
theorem manifest_rpcmethods (p : Plugin) (h : Reachable p) :
    p.MethodsKeyed ∧
    ∃ man : Manifest, GetManifestMethod.Call p = Outcome.ok (man, none) ∧
      (∀ r ∈ man.RpcMethods, ∃ c : ServerMethod,
          r.Method = some c ∧ c.Name ≠ "getmanifest" ∧ c.Name ≠ "init") ∧
      (∀ (name : String) (r : RpcMethod), p.methods.get name = some r →
          name ≠ "getmanifest" → name ≠ "init" → man.RpcMethods.count r = 1) ∧
      (∀ r ∈ man.RpcMethods, ∃ name : String, p.methods.get name = some r) ∧
      man.RpcMethods.length =
        (p.methods.keys.filter (fun k => !isBuiltInMethod k)).length := by
  have hk := Reachable_methodsKeyed p h
  refine ⟨hk, ?_⟩
  rw [GetManifestMethod_Call_eq p hk]
  refine ⟨_, rfl, ?_, ?_, ?_, ?_⟩
  · intro r hr
    simp only [List.mem_map, List.mem_filter] at hr
    obtain ⟨kv, ⟨hmem, hnb⟩, rfl⟩ := hr
    obtain ⟨c, hc, hn⟩ := hk kv hmem
    refine ⟨c, hc, ?_⟩
    rw [hn]
    apply (isBuiltInMethod_eq_false_iff kv.1).mp
    simpa using hnb
  · intro name r hget h1 h2
    have hmem : (name, r) ∈ p.methods.entries := AssocList.mem_of_get _ _ _ hget
    have hnb : isBuiltInMethod name = false := (isBuiltInMethod_eq_false_iff name).mpr ⟨h1, h2⟩
    have hnodup : (p.methods.entries.filter (fun kv => !isBuiltInMethod kv.1)).Nodup :=
      (AssocList.nodup_of_nodup_keys _ p.methods.nodup).filter _
    have hinj : ∀ x ∈ p.methods.entries.filter (fun kv => !isBuiltInMethod kv.1),
        ∀ y ∈ p.methods.entries.filter (fun kv => !isBuiltInMethod kv.1),
        x.2 = y.2 → x = y := by
      intro x hx y hy hxy
      obtain ⟨cx, hcx, hnx⟩ := hk x (List.mem_filter.mp hx).1
      obtain ⟨cy, hcy, hny⟩ := hk y (List.mem_filter.mp hy).1
      rw [hxy, hcy] at hcx
      cases hcx
      exact Prod.ext (hnx.symm.trans hny) hxy
    apply List.count_eq_one_of_mem (List.Nodup.map_on hinj hnodup)
    exact List.mem_map.mpr ⟨(name, r), List.mem_filter.mpr ⟨hmem, by simp [hnb]⟩, rfl⟩
  · intro r hr
    simp only [List.mem_map, List.mem_filter] at hr
    obtain ⟨kv, ⟨hmem, _⟩, rfl⟩ := hr
    exact ⟨kv.1, AssocList.get_of_mem _ _ _ p.methods.nodup hmem⟩
  · simp only [List.length_map, GoMap.keys, AssocList.keys, List.filter_map]
    rfl

/-- Witness of C3: the plugin after `ping`, `getmanifest` and `init` were
registered is reachable. -/
theorem manifest_rpcmethods_witness :
    Reachable pluginStarted ∧ pluginStarted.MethodsKeyed ∧
    ∃ man : Manifest, GetManifestMethod.Call pluginStarted = Outcome.ok (man, none) ∧
      (∀ r ∈ man.RpcMethods, ∃ c : ServerMethod,
          r.Method = some c ∧ c.Name ≠ "getmanifest" ∧ c.Name ≠ "init") ∧
      (∀ (name : String) (r : RpcMethod), pluginStarted.methods.get name = some r →
          name ≠ "getmanifest" → name ≠ "init" → man.RpcMethods.count r = 1) ∧
      (∀ r ∈ man.RpcMethods, ∃ name : String, pluginStarted.methods.get name = some r) ∧
      man.RpcMethods.length =
        (pluginStarted.methods.keys.filter (fun k => !isBuiltInMethod k)).length :=
  have h0 : Reachable pluginWithPing :=
    Reachable.registerMethod (NewPlugin (some onInit)) pluginWithPing (some pingMethod) none
      (Reachable.newPlugin (some onInit)) (by decide)
  have h1 : Reachable pluginStarted := by
    have hs : pluginWithPing.Start = Outcome.ok pluginStarted := by decide
    simp only [Plugin.Start, Outcome.bind] at hs
    cases ha : pluginWithPing.RegisterMethod (some NewManifestRpcMethod) with
    | panic msg => simp [ha] at hs
    | ok r1 =>
      obtain ⟨q1, e1⟩ := r1
      simp only [ha] at hs
      cases hb : q1.RegisterMethod (some NewInitRpcMethod) with
      | panic msg => simp [hb] at hs
      | ok r2 =>
        obtain ⟨q2, e2⟩ := r2
        simp only [hb, Outcome.ok.injEq] at hs
        subst hs
        exact Reachable.registerMethod q1 pluginStarted _ e2
          (Reachable.registerMethod pluginWithPing q1 _ e1 h0 ha) hb
  ⟨h1, manifest_rpcmethods pluginStarted h1⟩

end jrpc2

/-! ## Options: snapshots and the init loop -/

namespace jrpc2

theorem getOptionSetLoop_get (l : List (String × Option)) (acc : GoMap String) (k : String)
    (hn : (AssocList.keys l).Nodup) :
    (getOptionSetLoop l acc).get k =
      match AssocList.get k l with
      | some o => some o.Value
      | none => acc.get k := by
  induction l generalizing acc with
  | nil => simp [getOptionSetLoop, AssocList.get]
  | cons p t ih =>
    obtain ⟨key, o⟩ := p
    simp only [AssocList.keys, List.map_cons, List.nodup_cons] at hn
    simp only [getOptionSetLoop]
    rw [ih _ hn.2]
    by_cases h : key = k
    · subst h
      have hnone : AssocList.get key t = none := (AssocList.get_eq_none_iff key t).mpr hn.1
      simp [AssocList.get, hnone, GoMap.lookup_set_self]
    · have hne : k ≠ key := fun e => h e.symm
      simp only [AssocList.get, if_neg h, GoMap.lookup_set_ne _ _ _ _ hne]

theorem getOptionSet_get (p : Plugin) (k : String) :
    p.getOptionSet.get k = (p.options.get k).map Option.Value := by
  unfold Plugin.getOptionSet
  rw [getOptionSetLoop_get _ _ _ p.options.nodup]
  unfold GoMap.get
  cases AssocList.get k p.options.entries with
  | none => simp [GoMap.empty, AssocList.get]
  | some o => simp

theorem initOptionsLoop_get (l : List (String × String)) (options : GoMap Option)
    (log : List Event) (name : String) (hn : (AssocList.keys l).Nodup) :
    (initOptionsLoop l options log).1.get name =
      match AssocList.get name l with
      | some value => (options.get name).map (fun o => o.Set value)
      | none => options.get name := by
  induction l generalizing options log with
  | nil => simp [initOptionsLoop, AssocList.get]
  | cons p t ih =>
    obtain ⟨n, v⟩ := p
    simp only [AssocList.keys, List.map_cons, List.nodup_cons] at hn
    have hnone : AssocList.get n t = none := (AssocList.get_eq_none_iff n t).mpr hn.1
    simp only [initOptionsLoop]
    cases hget : options.get n with
    | none =>
      simp only []
      rw [ih _ _ hn.2]
      by_cases h : n = name
      · subst h
        simp [AssocList.get, hnone, hget]
      · simp only [AssocList.get, if_neg h]
    | some o =>
      simp only []
      rw [ih _ _ hn.2]
      by_cases h : n = name
      · subst h
        simp [AssocList.get, hnone, hget, GoMap.lookup_set_self]
      · have hne : name ≠ n := fun e => h e.symm
        simp only [AssocList.get, if_neg h, GoMap.lookup_set_ne _ _ _ _ hne]

theorem initOptionsLoop_keys (l : List (String × String)) (options : GoMap Option)
    (log : List Event) : (initOptionsLoop l options log).1.keys = options.keys := by
  induction l generalizing options log with
  | nil => rfl
  | cons p t ih =>
    obtain ⟨n, v⟩ := p
    simp only [initOptionsLoop]
    cases hget : options.get n with
    | none =>
      simp only []
      exact ih _ _
    | some o =>
      simp only []
      rw [ih _ _]
      apply GoMap.keys_set_of_mem
      by_contra hc
      rw [(GoMap.lookup_eq_none_iff options n).mpr hc] at hget
      cases hget

theorem initOptionsLoop_log (l : List (String × String)) (options : GoMap Option)
    (log : List Event) (hlog : ∀ e ∈ log, e.isInitFnCall = false) :
    ∀ e ∈ (initOptionsLoop l options log).2, e.isInitFnCall = false := by
  induction l generalizing options log with
  | nil => exact hlog
  | cons p t ih =>
    obtain ⟨n, v⟩ := p
    simp only [initOptionsLoop]
    cases hget : options.get n with
    | none =>
      simp only []
      apply ih
      intro e he
      rcases List.mem_append.mp he with h | h
      · exact hlog e h
      · simp only [List.mem_singleton] at h
        subst h
        rfl
    | some o =>
      simp only []
      exact ih _ _ hlog

theorem initOptionsLoop_warns (l : List (String × String)) (options : GoMap Option)
    (log : List Event) (name : String) (hmem : name ∈ AssocList.keys l)
    (hnot : name ∉ options.keys) :
    Event.logPrintf ("No option " ++ name ++ " registered on this plugin") ∈
      (initOptionsLoop l options log).2 := by
  have hmono : ∀ (l : List (String × String)) (options : GoMap Option) (log : List Event)
      (e : Event), e ∈ log → e ∈ (initOptionsLoop l options log).2 := by
    intro l
    induction l with
    | nil => intro options log e he; exact he
    | cons p t ih =>
      intro options log e he
      obtain ⟨n, v⟩ := p
      simp only [initOptionsLoop]
      cases hget : options.get n with
      | none =>
        simp only []
        exact ih _ _ e (List.mem_append_left _ he)
      | some o =>
        simp only []
        exact ih _ _ e he
  induction l generalizing options log with
  | nil => simp [AssocList.keys] at hmem
  | cons p t ih =>
    obtain ⟨n, v⟩ := p
    simp only [AssocList.keys, List.map_cons, List.mem_cons] at hmem
    simp only [initOptionsLoop]
    cases hget : options.get n with
    | none =>
      simp only []
      by_cases h : name = n
      · subst h
        exact hmono _ _ _ _ (List.mem_append_right _ (List.mem_singleton.mpr rfl))
      · rcases hmem with h1 | h1
        · exact absurd h1 h
        · exact ih _ _ h1 hnot
    | some o =>
      simp only []
      have hn : n ∈ options.keys := by
        by_contra hc
        rw [(GoMap.lookup_eq_none_iff options n).mpr hc] at hget
        cases hget
      have h : name ≠ n := fun e => hnot (e ▸ hn)
      rcases hmem with h1 | h1
      · exact absurd h1 h
      · apply ih _ _ h1
        rw [GoMap.keys_set_of_mem _ _ _ hn]
        exact hnot

end jrpc2

/-! ## Options: the claims -/

namespace jrpc2

/-- Counterexample to C4 as stated: an option made by `NewOption` with default
`42`, registered on a fresh plugin and never set, is mapped to the empty string
by the snapshot, not to its default. -/
theorem snapshot_default_counterexample :
    ¬ (∀ (p p' : Plugin) (name description defaultValue : String),
        p.RegisterOption (some (NewOption name description defaultValue)) = (p', none) →
        p'.getOptionSet.get name = some defaultValue) := by
  intro h
  have h1 := h (NewPlugin (some onInit)) pluginWithAnswer "answer" "" "42" (by decide)
  revert h1
  decide

/-- C4 (amended): for an option made by `NewOption(name, description, default)`
and registered with `RegisterOption`, the snapshot taken before any `Set` maps
the name to the option's current value, which is the empty string whatever the
default is; the default stays in the option's `Default` field. -/
theorem snapshot_before_init (p p' : Plugin) (name description defaultValue : String)
    (h : p.RegisterOption (some (NewOption name description defaultValue)) = (p', none)) :
    p'.getOptionSet.get name = some "" ∧
    (p'.GetOption name).map Option.Value = some "" ∧
    (p'.GetOption name).map Option.Default = some defaultValue := by
  have hp : p' = { p with options := p.options.set name (NewOption name description defaultValue) } := by
    unfold Plugin.RegisterOption at h
    simp only [NewOption] at h
    split at h
    · simp at h
    · simp only [Prod.mk.injEq, and_true] at h
      rw [← h]
      rfl
  subst hp
  rw [getOptionSet_get]
  simp [Plugin.GetOption, GoMap.lookup_set_self, NewOption, Option.Value]

/-- Witness of C4 (amended): the option `answer` with default `42`. -/
theorem snapshot_before_init_witness :
    (NewPlugin (some onInit)).RegisterOption (some (NewOption "answer" "" "42")) =
      (pluginWithAnswer, none) ∧
    pluginWithAnswer.getOptionSet.get "answer" = some "" ∧
    (pluginWithAnswer.GetOption "answer").map Option.Value = some "" ∧
    (pluginWithAnswer.GetOption "answer").map Option.Default = some "42" :=
  ⟨by decide,
   snapshot_before_init (NewPlugin (some onInit)) pluginWithAnswer "answer" "" "42" (by decide)⟩

/-- Counterexample to C5 as stated: on the plugin made by `NewPlugin(nil)` with
`answer` registered, the init request that sets `answer` to `7` makes
`InitMethod.Call` fault at the call of the nil callback, so the call does not
return, no snapshot is handed to a callback and there is no state after the
call in which `answer` is `7`. -/
theorem InitMethod_Call_sets_options_counterexample :
    (NewPlugin none).RegisterOption (some answerOption) = (answerWithoutCallback, none) ∧
    initRequest.Options.get "answer" = some "7" ∧
    answerWithoutCallback.GetOption "answer" = some answerOption ∧
    initRequest.Call answerWithoutCallback =
      Outcome.panic "invalid memory address or nil pointer dereference" ∧
    ¬ (∀ (p : Plugin) (im : InitMethod) (name value : String) (o : Option),
        im.Options.get name = some value → p.GetOption name = some o →
        ∃ (p' : Plugin) (ev : List Event) (r : String) (e : GoError),
          im.Call p = Outcome.ok (p', ev, r, e) ∧
          p'.GetOption name = some (o.Set value) ∧
          p'.getOptionSet.get name = some value) := by
  have hcall : initRequest.Call answerWithoutCallback =
      Outcome.panic "invalid memory address or nil pointer dereference" := by decide
  refine ⟨by decide, by decide, by decide, hcall, ?_⟩
  intro h
  obtain ⟨p', ev, r, e, hok, _⟩ :=
    h answerWithoutCallback initRequest "answer" "7" answerOption (by decide) (by decide)
  rw [hcall] at hok
  cases hok

/-- C5 (amended): for every plugin whose init callback is not nil and every
init request, `InitMethod.Call` returns; afterwards each registered option named in the
request has the supplied value as its current value, the snapshot handed to the
callback is the snapshot of the state after the call, that snapshot maps the
name to the supplied value, and each registered option not named in the request
is unchanged. -/
theorem InitMethod_Call_sets_options (p : Plugin) (im : InitMethod) (fn : InitFn)
    (hfn : p.initFn = some fn) :
    ∃ (p' : Plugin) (log : List Event),
      im.Call p = Outcome.ok
        (p', log ++ [Event.initFnCall fn p'.getOptionSet im.Configuration], "ok", none) ∧
      (∀ (name value : String) (o : Option),
          im.Options.get name = some value → p.GetOption name = some o →
          p'.GetOption name = some (o.Set value) ∧
          (p'.GetOption name).map Option.Value = some value ∧
          p'.getOptionSet.get name = some value) ∧
      (∀ (name : String) (o : Option),
          im.Options.get name = none → p.GetOption name = some o →
          p'.GetOption name = some o) := by
  refine ⟨_, _, InitMethod_Call_eq im p fn hfn, ?_, ?_⟩
  · intro name value o hreq hreg
    have hget : (initOptionsLoop im.Options.entries p.options []).1.get name =
        some (o.Set value) := by
      rw [initOptionsLoop_get _ _ _ _ im.Options.nodup]
      unfold GoMap.get at hreq
      unfold Plugin.GetOption at hreg
      simp [hreq, hreg]
    refine ⟨hget, ?_, ?_⟩
    · simp [Plugin.GetOption, hget, Option.Value, Option.Set]
    · rw [getOptionSet_get]
      simp [hget, Option.Value, Option.Set]
  · intro name o hreq hreg
    unfold Plugin.GetOption
    simp only []
    rw [initOptionsLoop_get _ _ _ _ im.Options.nodup]
    unfold GoMap.get at hreq
    unfold Plugin.GetOption at hreg
    simp [hreq, hreg]

/-- Witness of C5 (amended): `answer` registered with default `42`, set to `7` by the init
request. -/
theorem InitMethod_Call_sets_options_witness :
    pluginWithAnswer.initFn = some onInit ∧
    ∃ (p' : Plugin) (log : List Event),
      initRequest.Call pluginWithAnswer = Outcome.ok
        (p', log ++ [Event.initFnCall onInit p'.getOptionSet initRequest.Configuration],
          "ok", none) ∧
      (∀ (name value : String) (o : Option),
          initRequest.Options.get name = some value → pluginWithAnswer.GetOption name = some o →
          p'.GetOption name = some (o.Set value) ∧
          (p'.GetOption name).map Option.Value = some value ∧
          p'.getOptionSet.get name = some value) ∧
      (∀ (name : String) (o : Option),
          initRequest.Options.get name = none → pluginWithAnswer.GetOption name = some o →
          p'.GetOption name = some o) :=
  ⟨rfl, InitMethod_Call_sets_options pluginWithAnswer initRequest onInit rfl⟩

/-- Counterexample to C6 as stated: on the plugin made by `NewPlugin(nil)` the
init request makes `InitMethod.Call` fault at the call of the nil callback: it
does not return `ok` and no callback is called. -/
theorem InitMethod_Call_unknown_option_counterexample :
    initRequest.Call (NewPlugin none) =
      Outcome.panic "invalid memory address or nil pointer dereference" ∧
    ¬ (∀ (p : Plugin) (im : InitMethod),
        ∃ (p' : Plugin) (ev : List Event),
          im.Call p = Outcome.ok (p', ev, "ok", none) ∧
          p'.initialized = true ∧
          ev.countP Event.isInitFnCall = 1) := by
  have hcall : initRequest.Call (NewPlugin none) =
      Outcome.panic "invalid memory address or nil pointer dereference" := by decide
  refine ⟨hcall, ?_⟩
  intro h
  obtain ⟨p', ev, hok, _⟩ := h (NewPlugin none) initRequest
  rw [hcall] at hok
  cases hok

/-- C6 (amended): for every plugin whose init callback is not nil and every
init request, also one naming options that are not registered, `InitMethod.Call` returns `ok` with
no error, sets `initialized`, calls the init callback exactly once, logs a line
for each unknown name, leaves the option registry with the same names, and
leaves every option not named in the request unchanged. -/
theorem InitMethod_Call_unknown_option (p : Plugin) (im : InitMethod) (fn : InitFn)
    (hfn : p.initFn = some fn) :
    ∃ (p' : Plugin) (ev : List Event),
      im.Call p = Outcome.ok (p', ev, "ok", none) ∧
      p'.initialized = true ∧
      ev.countP Event.isInitFnCall = 1 ∧
      p'.options.keys = p.options.keys ∧
      (∀ name : String, im.Options.get name = none → p'.GetOption name = p.GetOption name) ∧
      (∀ name : String, name ∈ im.Options.keys → name ∉ p.options.keys →
          p'.GetOption name = none ∧
          Event.logPrintf ("No option " ++ name ++ " registered on this plugin") ∈ ev) := by
  refine ⟨_, _, InitMethod_Call_eq im p fn hfn, rfl, ?_, ?_, ?_, ?_⟩
  · rw [List.countP_append]
    have h0 : List.countP Event.isInitFnCall
        (initOptionsLoop im.Options.entries p.options []).2 = 0 := by
      rw [List.countP_eq_zero]
      intro e he
      simp [initOptionsLoop_log _ _ [] (by simp) e he]
    simp [h0, Event.isInitFnCall]
  · exact initOptionsLoop_keys _ _ _
  · intro name hreq
    unfold Plugin.GetOption
    simp only []
    rw [initOptionsLoop_get _ _ _ _ im.Options.nodup]
    unfold GoMap.get at hreq
    simp [hreq]
  · intro name hmem hnot
    constructor
    · unfold Plugin.GetOption
      simp only []
      rw [GoMap.lookup_eq_none_iff, initOptionsLoop_keys]
      exact hnot
    · exact List.mem_append_left _ (initOptionsLoop_warns _ _ _ _ hmem hnot)

/-- Witness of C6 (amended): the init request names `verbose`, which is not registered. -/
theorem InitMethod_Call_unknown_option_witness :
    pluginWithAnswer.initFn = some onInit ∧
    ∃ (p' : Plugin) (ev : List Event),
      initRequest.Call pluginWithAnswer = Outcome.ok (p', ev, "ok", none) ∧
      p'.initialized = true ∧
      ev.countP Event.isInitFnCall = 1 ∧
      p'.options.keys = pluginWithAnswer.options.keys ∧
      (∀ name : String, initRequest.Options.get name = none →
          p'.GetOption name = pluginWithAnswer.GetOption name) ∧
      (∀ name : String, name ∈ initRequest.Options.keys → name ∉ pluginWithAnswer.options.keys →
          p'.GetOption name = none ∧
          Event.logPrintf ("No option " ++ name ++ " registered on this plugin") ∈ ev) :=
  ⟨rfl, InitMethod_Call_unknown_option pluginWithAnswer initRequest onInit rfl⟩

/-- Counterexample to C7 as stated: on the plugin made by `NewPlugin(nil)` that
holds an older configuration, the init request carrying the `/tmp/x`
configuration makes `InitMethod.Call` fault at the call of the nil callback:
the call does not return and no callback receives the configuration. -/
theorem InitMethod_Call_stores_config_counterexample :
    initRequest.Configuration = some tmpConfig ∧
    initRequest.Call configuredWithoutCallback =
      Outcome.panic "invalid memory address or nil pointer dereference" ∧
    ¬ (∀ (p : Plugin) (im : InitMethod) (c : Config), im.Configuration = some c →
        ∃ (p' : Plugin) (ev : List Event) (r : String) (e : GoError),
          im.Call p = Outcome.ok (p', ev, r, e) ∧
          p'.Config = some c ∧
          ∃ (fn : InitFn) (options : GoMap String),
            Event.initFnCall fn options (some c) ∈ ev) := by
  have hcall : initRequest.Call configuredWithoutCallback =
      Outcome.panic "invalid memory address or nil pointer dereference" := by decide
  refine ⟨rfl, hcall, ?_⟩
  intro h
  obtain ⟨p', ev, r, e, hok, _⟩ := h configuredWithoutCallback initRequest tmpConfig rfl
  rw [hcall] at hok
  cases hok

/-- C7 (amended): for every plugin whose init callback is not nil, whatever its
prior `Config`, and every init request carrying a configuration `c`, after `InitMethod.Call`
the stored `Config` is `c`, so its `LightningDir` is that of `c`, and the one
call of the init callback receives `c`. -/
theorem InitMethod_Call_stores_config (p : Plugin) (im : InitMethod) (fn : InitFn)
    (c : Config) (hfn : p.initFn = some fn) (hc : im.Configuration = some c) :
    ∃ (p' : Plugin) (ev : List Event),
      im.Call p = Outcome.ok (p', ev, "ok", none) ∧
      p'.Config = some c ∧
      p'.Config.map Config.LightningDir = some c.LightningDir ∧
      ev.filter Event.isInitFnCall = [Event.initFnCall fn p'.getOptionSet (some c)] := by
  refine ⟨_, _, InitMethod_Call_eq im p fn hfn, hc, by simp [hc], ?_⟩
  rw [List.filter_append]
  have h0 : List.filter Event.isInitFnCall
      (initOptionsLoop im.Options.entries p.options []).2 = [] := by
    rw [List.filter_eq_nil_iff]
    intro e he
    simp [initOptionsLoop_log _ _ [] (by simp) e he]
  simp [h0, Event.isInitFnCall, hc]

/-- Witness of C7 (amended): the configuration with `lightning-dir` equal to `/tmp/x`, on
a plugin that held another configuration before. -/
theorem InitMethod_Call_stores_config_witness :
    ({ pluginWithAnswer with Config := some ⟨"/old", "/old/rpc"⟩ } : Plugin).initFn = some onInit ∧
    initRequest.Configuration = some tmpConfig ∧
    ∃ (p' : Plugin) (ev : List Event),
      initRequest.Call { pluginWithAnswer with Config := some ⟨"/old", "/old/rpc"⟩ } =
        Outcome.ok (p', ev, "ok", none) ∧
      p'.Config = some tmpConfig ∧
      p'.Config.map Config.LightningDir = some "/tmp/x" ∧
      ev.filter Event.isInitFnCall = [Event.initFnCall onInit p'.getOptionSet (some tmpConfig)] :=
  ⟨rfl, rfl,
   InitMethod_Call_stores_config { pluginWithAnswer with Config := some ⟨"/old", "/old/rpc"⟩ }
     initRequest onInit tmpConfig rfl rfl⟩

end jrpc2

namespace jrpc2

/-- C8: `RegisterOption(o)` returns an error if and only if `o` is nil or an
option named `o.Name` is already registered; on error the plugin, and so the
option registry, is unchanged; on success only the option registry changes, by
the one entry `o.Name -> o`: `GetOption(o.Name)` returns `o`, the lookup of
every other name is unchanged and the registry has one entry more. -/
theorem RegisterOption_spec (p : Plugin) (o : Nullable Option) :
    ((p.RegisterOption o).2 ≠ none ↔
      (o = none ∨ ∃ opt : Option, o = some opt ∧ p.GetOption opt.Name ≠ none)) ∧
    ((p.RegisterOption o).2 ≠ none → (p.RegisterOption o).1 = p) ∧
    (∀ opt : Option, o = some opt → (p.RegisterOption o).2 = none →
      (p.RegisterOption o).1 = { p with options := (p.RegisterOption o).1.options } ∧
      (p.RegisterOption o).1.GetOption opt.Name = some opt ∧
      (∀ name : String, name ≠ opt.Name →
        (p.RegisterOption o).1.GetOption name = p.GetOption name) ∧
      (p.RegisterOption o).1.options.keys = p.options.keys ++ [opt.Name] ∧
      (p.RegisterOption o).1.options.len = p.options.len + 1) := by
  cases o with
  | none => simp [Plugin.RegisterOption]
  | some opt =>
    by_cases h : p.options.contains opt.Name = true
    · have hget : ¬ p.options.get opt.Name = none := by
        intro e
        simp [GoMap.contains, e] at h
      simp [Plugin.RegisterOption, h, Plugin.GetOption, hget]
    · have hnot : opt.Name ∉ p.options.keys := fun hm => h ((GoMap.contains_iff _ _).mpr hm)
      have hget : p.options.get opt.Name = none := (GoMap.lookup_eq_none_iff _ _).mpr hnot
      have hkeys : (p.options.set opt.Name opt).keys = p.options.keys ++ [opt.Name] := by
        unfold GoMap.keys GoMap.set
        simp only [AssocList.keys_set]
        exact if_neg hnot
      simp only [Plugin.RegisterOption, h, Plugin.GetOption]
      refine ⟨by simp [hget], by simp, ?_⟩
      intro opt' ho _
      cases ho
      refine ⟨rfl, GoMap.lookup_set_self _ _ _, ?_, hkeys, GoMap.len_set_of_not_mem _ _ _ hnot⟩
      intro name hne
      exact GoMap.lookup_set_ne _ _ _ _ hne

/-- C9: for a non-nil option `o`, `UnregisterOption(o)` returns an error if and
only if no option named `o.Name` is registered; on error the plugin, and so the
option registry and its size, is unchanged; on success only the option registry
changes, by the removal of the entry for `o.Name`: the name is no longer
registered, the lookup of every other name is unchanged and the registry has
one entry less. -/
theorem UnregisterOption_spec (p : Plugin) (opt : Option) :
    ((p.UnregisterOption (some opt)).2 ≠ none ↔ p.GetOption opt.Name = none) ∧
    ((p.UnregisterOption (some opt)).2 ≠ none →
      (p.UnregisterOption (some opt)).1 = p ∧
      (p.UnregisterOption (some opt)).1.options.len = p.options.len) ∧
    ((p.UnregisterOption (some opt)).2 = none →
      (p.UnregisterOption (some opt)).1 =
        { p with options := (p.UnregisterOption (some opt)).1.options } ∧
      (p.UnregisterOption (some opt)).1.GetOption opt.Name = none ∧
      (∀ name : String, name ≠ opt.Name →
        (p.UnregisterOption (some opt)).1.GetOption name = p.GetOption name) ∧
      (p.UnregisterOption (some opt)).1.options.keys =
        p.options.keys.filter (fun k => decide (k ≠ opt.Name)) ∧
      (p.UnregisterOption (some opt)).1.options.len + 1 = p.options.len) := by
  by_cases h : p.options.contains opt.Name = true
  · have hmem : opt.Name ∈ p.options.keys := (GoMap.contains_iff _ _).mp h
    have hget : ¬ p.options.get opt.Name = none := by
      intro e
      simp [GoMap.contains, e] at h
    simp only [Plugin.UnregisterOption, h, Plugin.GetOption, hget]
    refine ⟨by simp, by simp, ?_⟩
    intro _
    refine ⟨rfl, GoMap.lookup_delete_self _ _, ?_, AssocList.keys_del _ _,
      GoMap.len_delete_of_mem _ _ hmem⟩
    intro name hne
    exact GoMap.lookup_delete_ne _ _ _ hne
  · have hnot : opt.Name ∉ p.options.keys := fun hm => h ((GoMap.contains_iff _ _).mpr hm)
    have hget : p.options.get opt.Name = none := (GoMap.lookup_eq_none_iff _ _).mpr hnot
    simp [Plugin.UnregisterOption, h, Plugin.GetOption, hget]

end jrpc2

/-! ## Null references, descriptions and parameter lists -/

namespace jrpc2

/-- C11: `RegisterMethod` with a nil descriptor faults at its first statement,
the read of `m.Method`, for every plugin; the guard of `registerRpcMethod`,
which returns an error and leaves the plugin unchanged for a nil descriptor and
for a descriptor with a nil callable, is never reached with a nil descriptor. -/
theorem RegisterMethod_nil_faults (p : Plugin) :
    p.RegisterMethod none =
      Outcome.panic "invalid memory address or nil pointer dereference" ∧
    p.registerRpcMethod none = (p, some "Can't register an empty rpc method") ∧
    ∀ desc : String,
      p.registerRpcMethod (some { Method := none, Desc := desc }) =
        (p, some "Can't register an empty rpc method") := by
  refine ⟨rfl, rfl, fun _ => rfl⟩

/-- C16: `Description()` of an option and of a method descriptor returns the
stored description when it is not empty and the fixed generic string otherwise,
so the result is never the empty string. -/
theorem Description_spec (o : Option) (r : RpcMethod) :
    (o.description ≠ "" → o.Description = o.description) ∧
    (o.description = "" → o.Description = "A golightning plugin option") ∧
    o.Description ≠ "" ∧
    (r.Desc ≠ "" → r.Description = r.Desc) ∧
    (r.Desc = "" → r.Description = "A golightning RPC method.") ∧
    r.Description ≠ "" := by
  refine ⟨?_, ?_, ?_, ?_, ?_, ?_⟩
  · intro h
    simp [Option.Description, h]
  · intro h
    simp [Option.Description, h]
  · by_cases h : o.description = ""
    · simp only [Option.Description, h]
      decide
    · simp [Option.Description, h]
  · intro h
    simp [RpcMethod.Description, h]
  · intro h
    simp [RpcMethod.Description, h]
  · by_cases h : r.Desc = ""
    · simp only [RpcMethod.Description, h]
      decide
    · simp [RpcMethod.Description, h]

theorem getParamListLoop_eq (fields : List Field) (paramList : List String) :
    getParamListLoop fields paramList =
      paramList ++ (fields.filter (fun f => f.CanInterface)).map Field.TypeName := by
  induction fields generalizing paramList with
  | nil => simp [getParamListLoop]
  | cons f t ih =>
    cases hf : f.CanInterface with
    | true => simp [getParamListLoop, hf, ih, List.filter_cons]
    | false => simp [getParamListLoop, hf, ih, List.filter_cons]

/-- C15: for every callable (a struct with its fields in declaration order)
`getParamList` returns the type names of the fields that can be interfaced, in
declaration order, the others skipped: its length is the number of such fields,
its i-th entry is the type name of the i-th such field, and it is empty when no
field can be interfaced, in particular when there is no field. -/
theorem getParamList_spec (m : ServerMethod) :
    ∃ params : List String,
      getParamList (some m) = Outcome.ok params ∧
      params = (m.fields.filter (fun f => f.CanInterface)).map Field.TypeName ∧
      params.length = m.fields.countP (fun f => f.CanInterface) ∧
      (∀ (i : Nat) (f : Field),
          (m.fields.filter (fun f => f.CanInterface))[i]? = some f →
          params[i]? = some f.TypeName) ∧
      ((∀ f ∈ m.fields, f.CanInterface = false) → params = []) ∧
      (m.fields = [] → params = []) := by
  refine ⟨_, rfl, ?_, ?_, ?_, ?_, ?_⟩
  · rw [getParamListLoop_eq]
    rfl
  · rw [getParamListLoop_eq]
    simp [List.countP_eq_length_filter]
  · intro i f hf
    rw [getParamListLoop_eq]
    simp [List.getElem?_map, hf]
  · intro h
    rw [getParamListLoop_eq]
    simp only [List.nil_append, List.map_eq_nil_iff, List.filter_eq_nil_iff]
    intro f hf
    simp [h f hf]
  · intro h
    rw [h]
    rfl

end jrpc2

namespace AssocList

variable {V : Type}

theorem del_set_of_not_mem (k : String) (v : V) (l : List (String × V)) (h : k ∉ keys l) :
    del k (set k v l) = l := by
  induction l with
  | nil => simp [set, del]
  | cons p t ih =>
    obtain ⟨k', v'⟩ := p
    simp only [keys, List.map_cons, List.mem_cons, not_or] at h
    have h1 : ¬ k' = k := fun e => h.1 e.symm
    simp only [set, if_neg h1, del]
    rw [ih h.2]

end AssocList

namespace jrpc2

/-- C17: for a descriptor with a non-nil callable `unregisterMethod` never
returns an error, whether the callable's name is in the method registry or not:
the error built for an unknown name is dropped and the (then vacuous) delete
runs.  An error is returned exactly for a nil descriptor and for a nil callable,
and then the plugin is unchanged. -/
theorem unregisterMethod_spec (p : Plugin) :
    (∀ (c : ServerMethod) (desc : String),
        p.unregisterMethod (some { Method := some c, Desc := desc }) =
          ({ p with methods := p.methods.delete c.Name }, none)) ∧
    (∀ (c : ServerMethod) (desc : String), p.methods.get c.Name = none →
        p.unregisterMethod (some { Method := some c, Desc := desc }) = (p, none)) ∧
    p.unregisterMethod none = (p, some "Can't unregister an empty method") ∧
    (∀ desc : String,
        p.unregisterMethod (some { Method := none, Desc := desc }) =
          (p, some "Can't unregister an empty method")) ∧
    (pluginWithPing.methods.get pongCallable.Name = none ∧
      (pluginWithPing.unregisterMethod (some pongMethod)).2 = none) := by
  refine ⟨fun _ _ => rfl, ?_, rfl, fun _ => rfl, by decide⟩
  intro c desc hget
  have hnot : c.Name ∉ p.methods.keys := (GoMap.lookup_eq_none_iff _ _).mp hget
  simp only [Plugin.unregisterMethod, GoMap.delete_of_not_mem _ _ hnot]

/-- C20: for a non-nil option whose name is not registered, `RegisterOption`
followed by `UnregisterOption` both return no error and give back the plugin,
and so the option registry, exactly as it was. -/
theorem RegisterOption_UnregisterOption (p : Plugin) (o : Option)
    (hnew : p.GetOption o.Name = none) :
    (p.RegisterOption (some o)).2 = none ∧
    ((p.RegisterOption (some o)).1.UnregisterOption (some o)).2 = none ∧
    ((p.RegisterOption (some o)).1.UnregisterOption (some o)).1 = p ∧
    ((p.RegisterOption (some o)).1.UnregisterOption (some o)).1.options = p.options := by
  have hk : o.Name ∉ p.options.keys := (GoMap.lookup_eq_none_iff _ _).mp hnew
  have hc : p.options.contains o.Name = false := (GoMap.contains_eq_false_iff _ _).mpr hk
  have hc2 : (p.options.set o.Name o).contains o.Name = true := by
    simp [GoMap.contains, GoMap.lookup_set_self]
  have hdel : (p.options.set o.Name o).delete o.Name = p.options :=
    GoMap.ext_entries (AssocList.del_set_of_not_mem _ _ _ hk)
  simp [Plugin.RegisterOption, Plugin.UnregisterOption, hc, hc2, hdel]

end jrpc2

namespace jrpc2

/-- Witness of C20: `answer` registered on a fresh plugin and removed again. -/
theorem RegisterOption_UnregisterOption_witness :
    (NewPlugin (some onInit)).GetOption answerOption.Name = none ∧
    ((NewPlugin (some onInit)).RegisterOption (some answerOption)).2 = none ∧
    (((NewPlugin (some onInit)).RegisterOption (some answerOption)).1.UnregisterOption
      (some answerOption)).2 = none ∧
    (((NewPlugin (some onInit)).RegisterOption (some answerOption)).1.UnregisterOption
      (some answerOption)).1 = NewPlugin (some onInit) ∧
    (((NewPlugin (some onInit)).RegisterOption (some answerOption)).1.UnregisterOption
      (some answerOption)).1.options = (NewPlugin (some onInit)).options :=
  ⟨by decide, RegisterOption_UnregisterOption (NewPlugin (some onInit)) answerOption (by decide)⟩

end jrpc2

/-! ## The initialized flag -/

namespace jrpc2

theorem RegisterMethod_initialized (p p' : Plugin) (m : Nullable RpcMethod) (e : GoError)
    (h : p.RegisterMethod m = Outcome.ok (p', e)) : p'.initialized = p.initialized := by
  cases m with
  | none => simp [Plugin.RegisterMethod, deref, Outcome.bind] at h
  | some r =>
    cases hm : r.Method with
    | none =>
      simp [Plugin.RegisterMethod, Server.Register, deref, Outcome.bind, hm] at h
    | some c =>
      rw [RegisterMethod_eq p r c hm] at h
      by_cases ha : p.server.registry.contains c.Name = true
      · rw [if_pos ha] at h
        cases h
        rfl
      · by_cases hb : p.methods.contains c.Name = true
        · rw [if_neg ha, if_pos hb] at h
          cases h
          rfl
        · rw [if_neg ha, if_neg hb] at h
          cases h
          rfl

theorem UnregisterMethod_initialized (p p' : Plugin) (m : Nullable RpcMethod) (e : GoError)
    (h : p.UnregisterMethod m = Outcome.ok (p', e)) : p'.initialized = p.initialized := by
  cases m with
  | none =>
    simp [Plugin.UnregisterMethod, Plugin.unregisterMethod, deref, Outcome.bind] at h
  | some r =>
    cases hm : r.Method with
    | none =>
      simp [Plugin.UnregisterMethod, Plugin.unregisterMethod, Server.Unregister, deref,
        Outcome.bind, hm] at h
    | some c =>
      rw [UnregisterMethod_eq p r c hm] at h
      by_cases ha : p.server.registry.contains c.Name = true
      · rw [if_pos ha] at h
        cases h
        rfl
      · rw [if_neg ha] at h
        cases h
        rfl

theorem RegisterOption_initialized (p : Plugin) (o : Nullable Option) :
    (p.RegisterOption o).1.initialized = p.initialized := by
  unfold Plugin.RegisterOption
  cases o with
  | none => rfl
  | some opt =>
    simp only []
    split <;> rfl

theorem UnregisterOption_initialized (p : Plugin) (o : Nullable Option) :
    (p.UnregisterOption o).1.initialized = p.initialized := by
  unfold Plugin.UnregisterOption
  cases o with
  | none => rfl
  | some opt =>
    simp only []
    split <;> rfl

/-- C12: `initialized` is false in the plugin made by `NewPlugin`; every call
of `RegisterMethod`, `UnregisterMethod`, `RegisterOption`, `UnregisterOption`,
`SetLogfile` and `Start` that returns leaves the flag as it was, so true stays
true; `InitMethod.Call` leaves it true whatever it was, so the only change ever
made is from false to true.  `GetOption` and `GetManifestMethod.Call` assign to
no field of the plugin and so have no plugin after the call to compare. -/
theorem initialized_one_way :
    (∀ fn : Nullable InitFn, (NewPlugin fn).initialized = false) ∧
    (∀ (p p' : Plugin) (m : Nullable RpcMethod) (e : GoError),
        p.RegisterMethod m = Outcome.ok (p', e) → p'.initialized = p.initialized) ∧
    (∀ (p p' : Plugin) (m : Nullable RpcMethod) (e : GoError),
        p.UnregisterMethod m = Outcome.ok (p', e) → p'.initialized = p.initialized) ∧
    (∀ (p : Plugin) (o : Nullable Option),
        (p.RegisterOption o).1.initialized = p.initialized) ∧
    (∀ (p : Plugin) (o : Nullable Option),
        (p.UnregisterOption o).1.initialized = p.initialized) ∧
    (∀ (p : Plugin) (filename : String),
        (p.SetLogfile filename).initialized = p.initialized) ∧
    (∀ p p' : Plugin, p.Start = Outcome.ok p' → p'.initialized = p.initialized) ∧
    (∀ (p p' : Plugin) (im : InitMethod) (ev : List Event) (r : String) (e : GoError),
        im.Call p = Outcome.ok (p', ev, r, e) →
        p'.initialized = true ∧ (p'.initialized ≠ p.initialized → p.initialized = false)) := by
  refine ⟨fun _ => rfl, RegisterMethod_initialized, UnregisterMethod_initialized,
    RegisterOption_initialized, UnregisterOption_initialized, fun _ _ => rfl, ?_, ?_⟩
  · intro p p' h
    simp only [Plugin.Start, Outcome.bind] at h
    cases ha : p.RegisterMethod (some NewManifestRpcMethod) with
    | panic msg => simp [ha] at h
    | ok r1 =>
      obtain ⟨q1, e1⟩ := r1
      simp only [ha] at h
      cases hb : q1.RegisterMethod (some NewInitRpcMethod) with
      | panic msg => simp [hb] at h
      | ok r2 =>
        obtain ⟨q2, e2⟩ := r2
        simp only [hb, Outcome.ok.injEq] at h
        subst h
        rw [RegisterMethod_initialized q1 q2 _ e2 hb, RegisterMethod_initialized p q1 _ e1 ha]
  · intro p p' im ev r e h
    have hp := InitMethod_Call_ok_inv im p p' ev r e h
    subst hp
    refine ⟨rfl, ?_⟩
    intro hne
    cases hi : p.initialized with
    | false => rfl
    | true => simp [hi] at hne

end jrpc2

/-! ## The option registry stays well keyed -/

namespace jrpc2

theorem RegisterMethod_options (p p' : Plugin) (m : Nullable RpcMethod) (e : GoError)
    (h : p.RegisterMethod m = Outcome.ok (p', e)) : p'.options = p.options := by
  cases m with
  | none => simp [Plugin.RegisterMethod, deref, Outcome.bind] at h
  | some r =>
    cases hm : r.Method with
    | none =>
      simp [Plugin.RegisterMethod, Server.Register, deref, Outcome.bind, hm] at h
    | some c =>
      rw [RegisterMethod_eq p r c hm] at h
      by_cases ha : p.server.registry.contains c.Name = true
      · rw [if_pos ha] at h
        cases h
        rfl
      · by_cases hb : p.methods.contains c.Name = true
        · rw [if_neg ha, if_pos hb] at h
          cases h
          rfl
        · rw [if_neg ha, if_neg hb] at h
          cases h
          rfl

theorem UnregisterMethod_options (p p' : Plugin) (m : Nullable RpcMethod) (e : GoError)
    (h : p.UnregisterMethod m = Outcome.ok (p', e)) : p'.options = p.options := by
  cases m with
  | none =>
    simp [Plugin.UnregisterMethod, Plugin.unregisterMethod, deref, Outcome.bind] at h
  | some r =>
    cases hm : r.Method with
    | none =>
      simp [Plugin.UnregisterMethod, Plugin.unregisterMethod, Server.Unregister, deref,
        Outcome.bind, hm] at h
    | some c =>
      rw [UnregisterMethod_eq p r c hm] at h
      by_cases ha : p.server.registry.contains c.Name = true
      · rw [if_pos ha] at h
        cases h
        rfl
      · rw [if_neg ha] at h
        cases h
        rfl

theorem RegisterOption_keyed (p : Plugin) (o : Nullable Option) (hk : p.OptionsKeyed) :
    (p.RegisterOption o).1.OptionsKeyed := by
  unfold Plugin.RegisterOption
  cases o with
  | none => exact hk
  | some opt =>
    simp only []
    split
    · exact hk
    · intro kv hkv
      rcases AssocList.mem_set_cases _ _ _ _ hkv with h1 | h1
      · subst h1
        rfl
      · exact hk kv h1

theorem UnregisterOption_keyed (p : Plugin) (o : Nullable Option) (hk : p.OptionsKeyed) :
    (p.UnregisterOption o).1.OptionsKeyed := by
  unfold Plugin.UnregisterOption
  cases o with
  | none => exact hk
  | some opt =>
    simp only []
    split
    · exact hk
    · intro kv hkv
      exact hk kv (AssocList.mem_of_mem_del _ _ _ hkv)

theorem initOptionsLoop_keyed (l : List (String × String)) (options : GoMap Option)
    (log : List Event) (hk : ∀ kv ∈ options.entries, kv.2.Name = kv.1) :
    ∀ kv ∈ (initOptionsLoop l options log).1.entries, kv.2.Name = kv.1 := by
  induction l generalizing options log with
  | nil => exact hk
  | cons p t ih =>
    obtain ⟨n, v⟩ := p
    simp only [initOptionsLoop]
    cases hget : options.get n with
    | none =>
      simp only []
      exact ih _ _ hk
    | some o =>
      simp only []
      apply ih
      intro kv hkv
      rcases AssocList.mem_set_cases _ _ _ _ hkv with h1 | h1
      · subst h1
        exact hk (n, o) (AssocList.mem_of_get _ _ _ hget)
      · exact hk kv h1

theorem Reachable_optionsKeyed (p : Plugin) (h : Reachable p) : p.OptionsKeyed := by
  induction h with
  | newPlugin fn =>
    intro kv hkv
    simp [NewPlugin, GoMap.empty] at hkv
  | registerMethod p p' m e _ hstep ih =>
    unfold Plugin.OptionsKeyed
    rw [RegisterMethod_options p p' m e hstep]
    exact ih
  | unregisterMethod p p' m e _ hstep ih =>
    unfold Plugin.OptionsKeyed
    rw [UnregisterMethod_options p p' m e hstep]
    exact ih
  | registerOption p o _ ih => exact RegisterOption_keyed p o ih
  | unregisterOption p o _ ih => exact UnregisterOption_keyed p o ih
  | setLogfile p filename _ ih => exact ih
  | init p p' im ev r e _ hstep ih =>
    rw [InitMethod_Call_ok_inv im p p' ev r e hstep]
    exact initOptionsLoop_keyed _ _ _ ih

/-- C18: in every plugin state reachable from `NewPlugin` by calls of the
controller, among them every sequence of `RegisterOption`, `UnregisterOption`
and `InitMethod.Call`, each entry of the option registry is an option stored
under its own `Name`, every key looks up such an option, and no two entries hold
options of the same `Name`; a call of `InitMethod.Call` keeps the `Name`, the
`Default` and the description of every registered option and leaves an option
not named in the request as it was. -/
theorem options_well_keyed (p : Plugin) (h : Reachable p) :
    p.OptionsKeyed ∧
    (∀ k ∈ p.options.keys, ∃ o : Option, p.GetOption k = some o ∧ o.Name = k) ∧
    (∀ kv1 ∈ p.options.entries, ∀ kv2 ∈ p.options.entries,
        kv1.2.Name = kv2.2.Name → kv1 = kv2) ∧
    (∀ (im : InitMethod) (p' : Plugin) (ev : List Event) (r : String) (e : GoError),
        im.Call p = Outcome.ok (p', ev, r, e) →
        p'.OptionsKeyed ∧
        ∀ (name : String) (o : Option), p.GetOption name = some o →
          ∃ o' : Option, p'.GetOption name = some o' ∧
            o'.Name = o.Name ∧ o'.Default = o.Default ∧ o'.description = o.description ∧
            (im.Options.get name = none → o' = o)) := by
  have hk := Reachable_optionsKeyed p h
  refine ⟨hk, ?_, ?_, ?_⟩
  · intro k hmem
    cases hget : p.options.get k with
    | none => exact absurd hmem ((GoMap.lookup_eq_none_iff _ _).mp hget)
    | some o => exact ⟨o, hget, hk (k, o) (AssocList.mem_of_get _ _ _ hget)⟩
  · intro kv1 h1 kv2 h2 hn
    have hkey : kv1.1 = kv2.1 := by rw [← hk kv1 h1, ← hk kv2 h2, hn]
    have g1 := AssocList.get_of_mem kv1.1 kv1.2 _ p.options.nodup h1
    have g2 := AssocList.get_of_mem kv2.1 kv2.2 _ p.options.nodup h2
    rw [hkey, g2] at g1
    exact Prod.ext hkey (Option.some.inj g1).symm
  · intro im p' ev r e hcall
    have hp := InitMethod_Call_ok_inv im p p' ev r e hcall
    subst hp
    refine ⟨initOptionsLoop_keyed _ _ _ hk, ?_⟩
    intro name o hreg
    unfold Plugin.GetOption at hreg ⊢
    simp only []
    rw [initOptionsLoop_get _ _ _ _ im.Options.nodup]
    cases hreq : AssocList.get name im.Options.entries with
    | none =>
      refine ⟨o, by simp [hreg], rfl, rfl, rfl, fun _ => rfl⟩
    | some v =>
      refine ⟨o.Set v, by simp [hreg], rfl, rfl, rfl, ?_⟩
      intro hnone
      unfold GoMap.get at hnone
      rw [hreq] at hnone
      cases hnone

/-- Witness of C18: the plugin with `answer` registered is reachable. -/
theorem options_well_keyed_witness :
    Reachable pluginWithAnswer ∧
    pluginWithAnswer.OptionsKeyed ∧
    (∀ k ∈ pluginWithAnswer.options.keys,
        ∃ o : Option, pluginWithAnswer.GetOption k = some o ∧ o.Name = k) ∧
    (∀ kv1 ∈ pluginWithAnswer.options.entries, ∀ kv2 ∈ pluginWithAnswer.options.entries,
        kv1.2.Name = kv2.2.Name → kv1 = kv2) ∧
    (∀ (im : InitMethod) (p' : Plugin) (ev : List Event) (r : String) (e : GoError),
        im.Call pluginWithAnswer = Outcome.ok (p', ev, r, e) →
        p'.OptionsKeyed ∧
        ∀ (name : String) (o : Option), pluginWithAnswer.GetOption name = some o →
          ∃ o' : Option, p'.GetOption name = some o' ∧
            o'.Name = o.Name ∧ o'.Default = o.Default ∧ o'.description = o.description ∧
            (im.Options.get name = none → o' = o)) :=
  have h : Reachable pluginWithAnswer :=
    Reachable.registerOption (NewPlugin (some onInit)) (some answerOption)
      (Reachable.newPlugin (some onInit))
  ⟨h, options_well_keyed pluginWithAnswer h⟩

end jrpc2

/-! ## The manifest's option list and repeated calls -/

namespace jrpc2

theorem manifestOptionsLoop_eq (l : List (String × Option))
    (pre rest : List (Nullable Option)) (hlen : l.length ≤ rest.length) :
    manifestOptionsLoop l pre.length (pre ++ rest) =
      pre ++ l.map (fun kv => some kv.2) ++ rest.drop l.length := by
  induction l generalizing pre rest with
  | nil => simp [manifestOptionsLoop]
  | cons p t ih =>
    obtain ⟨k, o⟩ := p
    cases rest with
    | nil => simp at hlen
    | cons r rest' =>
      simp only [List.length_cons, Nat.add_le_add_iff_right] at hlen
      have hset : (pre ++ r :: rest').set pre.length (some o) = (pre ++ [some o]) ++ rest' := by
        simp [List.set_append]
      have hlen' : pre.length + 1 = (pre ++ [some o]).length := by simp
      simp only [manifestOptionsLoop, hset]
      rw [hlen', ih (pre ++ [some o]) rest' hlen]
      simp

theorem countP_eq_one_of_nodup {α : Type} [DecidableEq α] (l : List α) (a : α)
    (hn : l.Nodup) (h : a ∈ l) : l.countP (fun x => decide (x = a)) = 1 := by
  induction l with
  | nil => simp at h
  | cons b t ih =>
    rw [List.nodup_cons] at hn
    by_cases hb : b = a
    · subst hb
      have h0 : t.countP (fun x => decide (x = b)) = 0 := by
        rw [List.countP_eq_zero]
        intro x hx
        simp only [decide_eq_true_eq]
        intro e
        subst e
        exact hn.1 hx
      simp [List.countP_cons, h0]
    · have hat : a ∈ t := by
        rcases List.mem_cons.mp h with e | e
        · exact absurd e.symm hb
        · exact e
      simp [List.countP_cons, hb, ih hn.2 hat]

theorem manifestOptionsLoop_replicate (l : List (String × Option)) :
    manifestOptionsLoop l 0 (List.replicate l.length none) =
      l.map (fun kv => some kv.2) := by
  have h := manifestOptionsLoop_eq l [] (List.replicate l.length none) (by simp)
  simpa using h

theorem Reachable_pluginStarted : Reachable pluginStarted := by
  have h0 : Reachable pluginWithPing :=
    Reachable.registerMethod (NewPlugin (some onInit)) pluginWithPing (some pingMethod) none
      (Reachable.newPlugin (some onInit)) (by decide)
  have h1 : Reachable (pluginWithPing.RegisterOption none).1 :=
    Reachable.registerOption pluginWithPing none h0
  have ha : ∃ q1 e1, pluginWithPing.RegisterMethod (some NewManifestRpcMethod) =
      Outcome.ok (q1, e1) ∧
      q1.RegisterMethod (some NewInitRpcMethod) = Outcome.ok (pluginStarted, none) := by
    refine ⟨{ pluginWithPing with
        server := { registry := ⟨[("ping", pingCallable),
          ("getmanifest", ⟨"getmanifest", [⟨"plugin", "", false⟩]⟩)], by decide⟩ }
        methods := ⟨[("ping", pingMethod), ("getmanifest", NewManifestRpcMethod)],
          by decide⟩ }, none, by decide, by decide⟩
  obtain ⟨q1, e1, hq1, hq2⟩ := ha
  exact Reachable.registerMethod q1 pluginStarted _ none
    (Reachable.registerMethod pluginWithPing q1 _ e1 h0 hq1) hq2

/-- C13: in every plugin state reachable by calls of the controller,
`GetManifestMethod.Call` returns a manifest whose `Options` lists the registered
options in iteration order: its length is the number of registered options,
every registered option occurs in it exactly once, no entry is nil, and every
entry is a registered option. -/
theorem manifest_options (p : Plugin) (h : Reachable p) :
    ∃ man : Manifest, GetManifestMethod.Call p = Outcome.ok (man, none) ∧
      man.Options = p.options.entries.map (fun kv => some kv.2) ∧
      man.Options.length = p.options.len ∧
      (∀ (name : String) (o : Option), p.GetOption name = some o →
          man.Options.countP (fun x => decide (x = some o)) = 1) ∧
      none ∉ man.Options ∧
      (∀ o : Option, some o ∈ man.Options → ∃ name : String, p.GetOption name = some o) := by
  have hm := Reachable_methodsKeyed p h
  have hk := Reachable_optionsKeyed p h
  rw [GetManifestMethod_Call_eq p hm]
  have hopts : manifestOptionsLoop p.options.entries 0 (List.replicate p.options.len none) =
      p.options.entries.map (fun kv => some kv.2) :=
    manifestOptionsLoop_replicate p.options.entries
  refine ⟨_, rfl, hopts, ?_, ?_, ?_, ?_⟩
  · simp only [hopts, List.length_map]
    rfl
  · intro name o hget
    simp only [hopts]
    have hmem : (name, o) ∈ p.options.entries := AssocList.mem_of_get _ _ _ hget
    have hnodup : p.options.entries.Nodup := AssocList.nodup_of_nodup_keys _ p.options.nodup
    have hinj : ∀ x ∈ p.options.entries, ∀ y ∈ p.options.entries,
        (fun kv : String × Option => (some kv.2 : Nullable Option)) x =
          (fun kv : String × Option => (some kv.2 : Nullable Option)) y → x = y := by
      intro x hx y hy hxy
      have h2 : x.2 = y.2 := Option.some.inj hxy
      have h1 : x.1 = y.1 := by rw [← hk x hx, ← hk y hy, h2]
      exact Prod.ext h1 h2
    exact countP_eq_one_of_nodup _ _ (List.Nodup.map_on hinj hnodup)
      (List.mem_map.mpr ⟨(name, o), hmem, rfl⟩)
  · simp only [hopts, List.mem_map, not_exists, not_and]
    intro kv _ hkv
    cases hkv
  · intro o ho
    simp only [hopts, List.mem_map] at ho
    obtain ⟨kv, hmem, hkv⟩ := ho
    have h2 : kv.2 = o := Option.some.inj hkv
    subst h2
    exact ⟨kv.1, AssocList.get_of_mem _ _ _ p.options.nodup hmem⟩

end jrpc2

namespace jrpc2

/-- Witness of C13: the plugin with `answer` registered is reachable. -/
theorem manifest_options_witness :
    Reachable pluginWithAnswer ∧
    ∃ man : Manifest, GetManifestMethod.Call pluginWithAnswer = Outcome.ok (man, none) ∧
      man.Options = pluginWithAnswer.options.entries.map (fun kv => some kv.2) ∧
      man.Options.length = pluginWithAnswer.options.len ∧
      (∀ (name : String) (o : Option), pluginWithAnswer.GetOption name = some o →
          man.Options.countP (fun x => decide (x = some o)) = 1) ∧
      none ∉ man.Options ∧
      (∀ o : Option, some o ∈ man.Options →
          ∃ name : String, pluginWithAnswer.GetOption name = some o) :=
  have h : Reachable pluginWithAnswer :=
    Reachable.registerOption (NewPlugin (some onInit)) (some answerOption)
      (Reachable.newPlugin (some onInit))
  ⟨h, manifest_options pluginWithAnswer h⟩

/-- C14: in every plugin state reachable by calls of the controller,
`GetManifestMethod.Call` returns a manifest and no error, and a second call on
the same registries, whatever the order in which it visits their entries,
returns a manifest with the same methods and the same options up to order.  The
call reads the plugin and assigns to none of its fields. -/
theorem manifest_idempotent (p q : Plugin) (h : Reachable p)
    (hm : SameEntries p.methods q.methods) (ho : SameEntries p.options q.options) :
    ∃ man1 man2 : Manifest,
      GetManifestMethod.Call p = Outcome.ok (man1, none) ∧
      GetManifestMethod.Call q = Outcome.ok (man2, none) ∧
      man1.RpcMethods.Perm man2.RpcMethods ∧
      man1.Options.Perm man2.Options := by
  have hkp := Reachable_methodsKeyed p h
  have hkq : q.MethodsKeyed := fun kv hkv => hkp kv (hm.mem_iff.mpr hkv)
  rw [GetManifestMethod_Call_eq p hkp, GetManifestMethod_Call_eq q hkq]
  refine ⟨_, _, rfl, rfl, ?_, ?_⟩
  · exact (hm.filter _).map _
  · simp only [GoMap.len]
    rw [manifestOptionsLoop_replicate p.options.entries,
      manifestOptionsLoop_replicate q.options.entries]
    exact ho.map _

/-- Witness of C14: the started plugin and the same plugin with its method
registry visited in another order. -/
theorem manifest_idempotent_witness :
    Reachable pluginStarted ∧
    SameEntries pluginStarted.methods pluginStartedReordered.methods ∧
    SameEntries pluginStarted.options pluginStartedReordered.options ∧
    ∃ man1 man2 : Manifest,
      GetManifestMethod.Call pluginStarted = Outcome.ok (man1, none) ∧
      GetManifestMethod.Call pluginStartedReordered = Outcome.ok (man2, none) ∧
      man1.RpcMethods.Perm man2.RpcMethods ∧
      man1.Options.Perm man2.Options :=
  have hm : SameEntries pluginStarted.methods pluginStartedReordered.methods := by
    unfold SameEntries
    decide
  have ho : SameEntries pluginStarted.options pluginStartedReordered.options :=
    List.Perm.refl _
  ⟨Reachable_pluginStarted, hm, ho,
    manifest_idempotent pluginStarted pluginStartedReordered Reachable_pluginStarted hm ho⟩

end jrpc2

/-! ## The forwarded amount of the example plugin -/

namespace htlcacc

theorem wrapInt_range (x : Int) : -(2 ^ 63) ≤ wrapInt x ∧ wrapInt x < 2 ^ 63 := by
  unfold wrapInt
  omega

theorem wrapInt_of_range (x : Int) (h1 : -(2 ^ 63) ≤ x) (h2 : x < 2 ^ 63) : wrapInt x = x := by
  unfold wrapInt
  omega

theorem toUint64_wrapInt (x : Int) : (toUint64 (wrapInt x) : Int) = x % 2 ^ 64 := by
  unfold toUint64 wrapInt
  omega

theorem ParseInt_cons (c : UInt8) (rest : List UInt8) :
    ParseInt (c :: rest) =
      (fun (neg : Bool) (r : Nat × Nullable NumError) =>
        if r.2 = some NumError.ErrSyntax then ((0 : Int), some NumError.ErrSyntax)
        else if !neg && r.1 ≥ 2 ^ 63 then (2 ^ 63 - 1, some NumError.ErrRange)
        else if neg && r.1 > 2 ^ 63 then (-(2 ^ 63), some NumError.ErrRange)
        else (if neg then wrapInt (-(wrapInt r.1)) else wrapInt r.1, none))
      (c == 45) (ParseUint (if c == 43 || c == 45 then rest else c :: rest)) := rfl

theorem Atoi_range (s : GoString) : -(2 ^ 63) ≤ (Atoi s).1 ∧ (Atoi s).1 < 2 ^ 63 := by
  unfold Atoi
  cases s with
  | nil => simp [ParseInt]
  | cons c rest =>
    rw [ParseInt_cons]
    generalize ParseUint (if c == 43 || c == 45 then rest else c :: rest) = r
    generalize (c == 45) = neg
    simp only []
    split
    · simp
    · split
      · simp
      · split
        · simp
        · split
          · exact wrapInt_range _
          · exact wrapInt_range _

theorem Atoi_syntax_zero (s : GoString) (h : (Atoi s).2 = some NumError.ErrSyntax) :
    (Atoi s).1 = 0 := by
  unfold Atoi at h ⊢
  cases s with
  | nil => rfl
  | cons c rest =>
    rw [ParseInt_cons] at h ⊢
    generalize ParseUint (if c == 43 || c == 45 then rest else c :: rest) = r at h ⊢
    generalize (c == 45) = neg at h ⊢
    simp only [] at h ⊢
    split
    · rfl
    · rename_i h1
      rw [if_neg h1] at h
      split at h
      · simp at h
      · split at h
        · simp at h
        · simp at h

theorem decimalValue_ge (s : List UInt8) (n : Nat) : n ≤ decimalValue s n := by
  induction s generalizing n with
  | nil => exact Nat.le_refl n
  | cons c rest ih =>
    simp only [decimalValue]
    have := ih (n * 10 + (c.toNat - 48))
    omega

theorem parseUintLoop_digits (s : List UInt8) (n : Nat)
    (hd : ∀ c ∈ s, isDigit c = true) (hv : decimalValue s n < 2 ^ 64) :
    parseUintLoop s n = (decimalValue s n, none) := by
  induction s generalizing n with
  | nil => rfl
  | cons c rest ih =>
    have hc : isDigit c = true := hd c (List.mem_cons_self _ _)
    have hrest : ∀ c' ∈ rest, isDigit c' = true := fun c' h => hd c' (List.mem_cons_of_mem _ h)
    simp only [decimalValue] at hv ⊢
    have hge := decimalValue_ge rest (n * 10 + (c.toNat - 48))
    have h1 : ¬ n ≥ maxUint64 / 10 + 1 := by
      unfold maxUint64
      omega
    have h2 : ¬ n * 10 + (c.toNat - 48) > maxUint64 := by
      unfold maxUint64
      omega
    simp only [parseUintLoop, hc, Bool.not_true, Bool.false_eq_true, if_false, h1, h2]
    exact ih _ hrest hv

theorem isDigit_ne_sign (c : UInt8) (hc : isDigit c = true) :
    (c == 43) = false ∧ (c == 45) = false := by
  simp only [isDigit, Bool.and_eq_true, decide_eq_true_eq] at hc
  constructor
  · simp only [beq_eq_false_iff_ne, ne_eq]
    intro e
    subst e
    revert hc
    decide
  · simp only [beq_eq_false_iff_ne, ne_eq]
    intro e
    subst e
    revert hc
    decide

theorem Atoi_digits (s : GoString) (hne : s ≠ []) (hd : ∀ c ∈ s, isDigit c = true)
    (hv : decimalValue s 0 < 2 ^ 63) : Atoi s = (((decimalValue s 0 : Nat) : Int), none) := by
  cases s with
  | nil => exact absurd rfl hne
  | cons c rest =>
    have hc : isDigit c = true := hd c (List.mem_cons_self _ _)
    obtain ⟨h43, h45⟩ := isDigit_ne_sign c hc
    have hloop := parseUintLoop_digits (c :: rest) 0 hd (by omega)
    have hpu : ParseUint (c :: rest) = (decimalValue (c :: rest) 0, none) := by
      simp only [ParseUint, hloop]
      simp
    have hw : wrapInt ((decimalValue (c :: rest) 0 : Nat) : Int) =
        (decimalValue (c :: rest) 0 : Nat) :=
      wrapInt_of_range _ (by omega) (by omega)
    have hlt : ¬ (decimalValue (c :: rest) 0 ≥ 2 ^ 63) := by omega
    unfold Atoi
    rw [ParseInt_cons]
    simp only [h43, h45, Bool.or_self, Bool.false_eq_true, if_false, hpu]
    simp [hw, hlt]
    omega

theorem sliceTo_ok (s : GoString) (h : 4 ≤ s.length) :
    sliceTo s ((s.length : Int) - 4) = Outcome.ok (s.take (s.length - 4)) := by
  have h1 : ¬ ((s.length : Int) - 4 < 0 ∨ (s.length : Int) < (s.length : Int) - 4) := by omega
  have h2 : ((s.length : Int) - 4).toNat = s.length - 4 := by omega
  simp only [sliceTo, if_neg h1, h2]

theorem sliceTo_short (s : GoString) (h : s.length < 4) :
    sliceTo s ((s.length : Int) - 4) = Outcome.panic "slice bounds out of range" := by
  have h1 : ((s.length : Int) - 4 < 0 ∨ (s.length : Int) < (s.length : Int) - 4) := by omega
  simp only [sliceTo, if_pos h1]

theorem OnHtlcAccepted_amtf_ok (onion : Onion)
    (h4 : 4 ≤ onion.ForwardAmount.length) (ht4 : 4 ≤ onion.TotalMilliSatoshi.length) :
    OnHtlcAccepted_amtf onion =
      Outcome.ok (toUint64 (wrapInt
        ((Atoi (onion.ForwardAmount.take (onion.ForwardAmount.length - 4))).1 + 1))) := by
  simp only [OnHtlcAccepted_amtf, sliceTo_ok _ h4, sliceTo_ok _ ht4, Outcome.bind]

/-- Counterexample to C19 as stated: with `ForwardAmount` equal to `1000msat`
and an empty `TotalMilliSatoshi` the function faults at the second slice before
any amount is placed; with `ForwardAmount` equal to `-5msat` the parsed integer
is -5 and the amount placed is 18446744073709551612, not -4. -/
theorem OnHtlcAccepted_amtf_counterexample :
    (4 ≤ msat1000.length ∧
      OnHtlcAccepted_amtf { ForwardAmount := msat1000, TotalMilliSatoshi := [] } =
        Outcome.panic "slice bounds out of range") ∧
    (4 ≤ msatMinus5.length ∧
      Atoi (msatMinus5.take (msatMinus5.length - 4)) = (-5, none) ∧
      OnHtlcAccepted_amtf { ForwardAmount := msatMinus5, TotalMilliSatoshi := msat2000 } =
        Outcome.ok 18446744073709551612 ∧
      ((18446744073709551612 : Nat) : Int) ≠ -5 + 1) := by
  decide

/-- C19 (amended): when `ForwardAmount` and `TotalMilliSatoshi` both have at
least 4 bytes, the amount given to the amount-to-forward record is `n + 1`
reduced modulo `2^64`, where `n` is the value `strconv.Atoi` returns for
`ForwardAmount` without its last 4 bytes, the conversion error being dropped; it
is `n + 1` itself whenever `n` is at least -1, it is the decimal value plus one
when the prefix is a non-empty string of digits below `2^63`, and it is 1 when
`Atoi` reports a syntax error, as for an empty prefix.  A `ForwardAmount` shorter
than 4 bytes makes the slice fault. -/
theorem OnHtlcAccepted_amtf_spec (onion : Onion)
    (h4 : 4 ≤ onion.ForwardAmount.length) (ht4 : 4 ≤ onion.TotalMilliSatoshi.length) :
    (∃ amtf : Nat,
      OnHtlcAccepted_amtf onion = Outcome.ok amtf ∧
      (amtf : Int) =
        ((Atoi (onion.ForwardAmount.take (onion.ForwardAmount.length - 4))).1 + 1) % 2 ^ 64 ∧
      (-1 ≤ (Atoi (onion.ForwardAmount.take (onion.ForwardAmount.length - 4))).1 →
        (amtf : Int) =
          (Atoi (onion.ForwardAmount.take (onion.ForwardAmount.length - 4))).1 + 1) ∧
      (onion.ForwardAmount.take (onion.ForwardAmount.length - 4) ≠ [] →
        (∀ c ∈ onion.ForwardAmount.take (onion.ForwardAmount.length - 4), isDigit c = true) →
        decimalValue (onion.ForwardAmount.take (onion.ForwardAmount.length - 4)) 0 < 2 ^ 63 →
        amtf = decimalValue (onion.ForwardAmount.take (onion.ForwardAmount.length - 4)) 0 + 1) ∧
      ((Atoi (onion.ForwardAmount.take (onion.ForwardAmount.length - 4))).2 =
          some NumError.ErrSyntax → amtf = 1) ∧
      (onion.ForwardAmount.length = 4 → amtf = 1)) ∧
    (∀ short : Onion, short.ForwardAmount.length < 4 →
      OnHtlcAccepted_amtf short = Outcome.panic "slice bounds out of range") := by
  constructor
  · refine ⟨_, OnHtlcAccepted_amtf_ok onion h4 ht4, toUint64_wrapInt _, ?_, ?_, ?_, ?_⟩
    · intro hn
      have hr := Atoi_range (onion.ForwardAmount.take (onion.ForwardAmount.length - 4))
      rw [toUint64_wrapInt]
      omega
    · intro hne hd hv
      have ha := Atoi_digits _ hne hd hv
      have h := toUint64_wrapInt
        ((Atoi (onion.ForwardAmount.take (onion.ForwardAmount.length - 4))).1 + 1)
      rw [ha] at h ⊢
      simp only [] at h ⊢
      omega
    · intro hs
      rw [Atoi_syntax_zero _ hs]
      decide
    · intro hlen
      have he : onion.ForwardAmount.take (onion.ForwardAmount.length - 4) = [] := by
        rw [hlen]
        rfl
      rw [he]
      decide
  · intro short hshort
    simp only [OnHtlcAccepted_amtf, sliceTo_short _ hshort, Outcome.bind]

/-- Witness of C19 (amended): `1000msat` forwarded with a total of `2000msat`. -/
theorem OnHtlcAccepted_amtf_spec_witness :
    4 ≤ exampleOnion.ForwardAmount.length ∧ 4 ≤ exampleOnion.TotalMilliSatoshi.length ∧
    ((∃ amtf : Nat,
      OnHtlcAccepted_amtf exampleOnion = Outcome.ok amtf ∧
      (amtf : Int) =
        ((Atoi (exampleOnion.ForwardAmount.take
          (exampleOnion.ForwardAmount.length - 4))).1 + 1) % 2 ^ 64 ∧
      (-1 ≤ (Atoi (exampleOnion.ForwardAmount.take
          (exampleOnion.ForwardAmount.length - 4))).1 →
        (amtf : Int) =
          (Atoi (exampleOnion.ForwardAmount.take
            (exampleOnion.ForwardAmount.length - 4))).1 + 1) ∧
      (exampleOnion.ForwardAmount.take (exampleOnion.ForwardAmount.length - 4) ≠ [] →
        (∀ c ∈ exampleOnion.ForwardAmount.take (exampleOnion.ForwardAmount.length - 4),
          isDigit c = true) →
        decimalValue (exampleOnion.ForwardAmount.take
          (exampleOnion.ForwardAmount.length - 4)) 0 < 2 ^ 63 →
        amtf = decimalValue (exampleOnion.ForwardAmount.take
          (exampleOnion.ForwardAmount.length - 4)) 0 + 1) ∧
      ((Atoi (exampleOnion.ForwardAmount.take
          (exampleOnion.ForwardAmount.length - 4))).2 = some NumError.ErrSyntax → amtf = 1) ∧
      (exampleOnion.ForwardAmount.length = 4 → amtf = 1)) ∧
    (∀ short : Onion, short.ForwardAmount.length < 4 →
      OnHtlcAccepted_amtf short = Outcome.panic "slice bounds out of range")) :=
  ⟨by decide, by decide, OnHtlcAccepted_amtf_spec exampleOnion (by decide) (by decide)⟩

end htlcacc
